import Mathlib

/-!
Verification of the parabolic-ramp trajectory core
(`src/plugins/rplanners/rampoptimizer/ramp.cpp`, namespace
`RampOptimizerInternal`).

Real numbers are embedded as `ℚ`.  Operations guarded by `BOOST_ASSERT`
(or that would perform an out-of-range `std::vector` access) are embedded
as `Except Err` computations: `.error .assertionFailure` models a failing
assertion, `.error .outOfRangeAccess` models an out-of-range access
(undefined behaviour in the C++).
-/

set_option autoImplicit false

namespace RampOpt

/-- Failure modes of the embedded operations. -/
inductive Err where
  | assertionFailure
  | outOfRangeAccess
deriving DecidableEq, Repr

/-- Modelled from the spec: fuzzy equality up to tolerance `eps`
("numeric equality up to a small tolerance `epsilon`"); the helper lives in
`ramp.h`, which is not part of the sources. -/
def FuzzyEquals (x y eps : ℚ) : Bool := |x - y| ≤ eps

/-- Modelled from the spec: fuzzy comparison with zero, tolerance `eps`
(helper from `ramp.h`, not part of the sources). -/
def FuzzyZero (x eps : ℚ) : Bool := |x| ≤ eps

/-- One constant-acceleration segment.  `v0, a, duration, x0` are the given
fields; `v1, d, x1` are the derived fields stored alongside them, exactly as
in the C++ class. -/
structure Ramp where
  v0 : ℚ
  a : ℚ
  duration : ℚ
  x0 : ℚ
  v1 : ℚ
  d : ℚ
  x1 : ℚ
deriving DecidableEq, Repr, Inhabited

/-- Body shared by `Ramp::Ramp` and `Ramp::Initialize` (after the assertion):
store the four given fields and compute `v1 = v0 + a*duration`,
`d = duration*(v0 + 0.5*a*duration)`, `x1 = x0 + d`. -/
def Ramp.make (v0 a dur x0 : ℚ) : Ramp :=
  { v0 := v0
    a := a
    duration := dur
    x0 := x0
    v1 := v0 + a * dur
    d := dur * (v0 + (1/2) * a * dur)
    x1 := x0 + dur * (v0 + (1/2) * a * dur) }

/-- `Ramp::Ramp(v0_, a_, dur_, x0_)`: asserts `dur_ >= -epsilon`, then fills
the fields. -/
def Ramp.mk? (eps v0 a dur x0 : ℚ) : Except Err Ramp :=
  if -eps ≤ dur then .ok (Ramp.make v0 a dur x0) else .error .assertionFailure

/-- `Ramp::Initialize`: identical to the constructor (assertion then field
computation); the previous state of the ramp is discarded. -/
def Ramp.InitializeR (_r : Ramp) (eps v0 a dur x0 : ℚ) : Except Err Ramp :=
  Ramp.mk? eps v0 a dur x0

/-- `Ramp::EvalPos(t)`: asserts `-epsilon <= t <= duration + epsilon`;
clamps `t <= 0` to `x0` and `t >= duration` to `x1`; interior times use the
closed-form quadratic `t*(v0 + 0.5*a*t) + x0`. -/
def Ramp.EvalPos (r : Ramp) (eps t : ℚ) : Except Err ℚ :=
  if -eps ≤ t ∧ t ≤ r.duration + eps then
    .ok (if t ≤ 0 then r.x0
         else if r.duration ≤ t then r.x1
         else t * (r.v0 + (1/2) * r.a * t) + r.x0)
  else .error .assertionFailure

/-- `Ramp::EvalVel(t)`: asserts the same range; clamps to `v0`/`v1`; interior
times use the linear form `v0 + a*t`. -/
def Ramp.EvalVel (r : Ramp) (eps t : ℚ) : Except Err ℚ :=
  if -eps ≤ t ∧ t ≤ r.duration + eps then
    .ok (if t ≤ 0 then r.v0
         else if r.duration ≤ t then r.v1
         else r.v0 + r.a * t)
  else .error .assertionFailure

/-- `Ramp::EvalAcc(t)`: asserts the range and returns the constant `a`. -/
def Ramp.EvalAcc (r : Ramp) (eps t : ℚ) : Except Err ℚ :=
  if -eps ≤ t ∧ t ≤ r.duration + eps then .ok r.a
  else .error .assertionFailure

/-- `Ramp::GetPeaks(bmin, bmax)`: fuzzily-zero acceleration orders the two
endpoints by the sign of `v0`; otherwise they are ordered by the sign of `a`
and, when the stationary time `-v0/a` lies strictly inside `(0, duration)`,
the position there widens the interval. -/
def Ramp.GetPeaks (r : Ramp) (eps : ℚ) : Except Err (ℚ × ℚ) :=
  if FuzzyZero r.a eps then
    .ok (if r.v0 > 0 then (r.x0, r.x1) else (r.x1, r.x0))
  else
    let p := if r.a > 0 then (r.x0, r.x1) else (r.x1, r.x0)
    let tDeflection := -r.v0 / r.a
    if tDeflection ≤ 0 ∨ r.duration ≤ tDeflection then .ok p
    else do
      let xDeflection ← r.EvalPos eps tDeflection
      .ok (min p.1 xDeflection, max p.2 xDeflection)

/-- `Ramp::UpdateDuration(newDuration)`: asserts `newDuration >= -epsilon`,
clamps negatives (within tolerance) to `0`, and recomputes `v1, d, x1` from
the unchanged `v0, a, x0`. -/
def Ramp.UpdateDuration (r : Ramp) (eps newDuration : ℚ) : Except Err Ramp :=
  if -eps ≤ newDuration then
    let nd := if newDuration < 0 then 0 else newDuration
    .ok { r with duration := nd
                 v1 := r.v0 + r.a * nd
                 d := nd * (r.v0 + (1/2) * r.a * nd)
                 x1 := r.x0 + nd * (r.v0 + (1/2) * r.a * nd) }
  else .error .assertionFailure

/-- One scalar-axis curve: an ordered ramp sequence, the cumulative
switch-point table, and the aggregate fields, exactly the data members of the
C++ class. -/
structure ParabolicCurve where
  ramps : List Ramp
  switchpointsList : List ℚ
  x0 : ℚ
  x1 : ℚ
  v0 : ℚ
  v1 : ℚ
  d : ℚ
  duration : ℚ
deriving DecidableEq, Repr, Inhabited

/-- Modelled from the spec: `ParabolicCurve::IsEmpty` (declared in `ramp.h`,
not part of the sources) — a curve is empty when it holds no ramps, matching
the `ramps.size() == 0` test `Append` performs on itself. -/
def ParabolicCurve.IsEmpty (c : ParabolicCurve) : Bool := c.ramps.isEmpty

/-- The loop body of `ParabolicCurve::SetInitialValue`: walk the ramps,
overwrite each ramp's `x0` member with the running position and advance the
running position by that ramp's `d`.  No other ramp member is touched. -/
def setRampListX0 : List Ramp → ℚ → List Ramp
  | [], _ => []
  | r :: rs, cur => { r with x0 := cur } :: setRampListX0 rs (cur + r.d)

/-- `ParabolicCurve::SetInitialValue(newx0)`: set the curve's `x0`, rebase
every ramp's `x0`, and set `x1 = x0 + d`. -/
def ParabolicCurve.SetInitialValue (c : ParabolicCurve) (newx0 : ℚ) :
    ParabolicCurve :=
  { c with x0 := newx0
           ramps := setRampListX0 c.ramps newx0
           x1 := newx0 + c.d }

/-- The shared ramp-appending loop of the `ParabolicCurve` constructor,
`Initialize` and `Append`: push each incoming ramp, accumulate `d` and
`duration`, and push the new cumulative time onto the switch-point table. -/
def buildCurveLoop : List Ramp → ParabolicCurve → ParabolicCurve
  | [], c => c
  | r :: rs, c =>
      buildCurveLoop rs
        { c with ramps := c.ramps ++ [r]
                 d := c.d + r.d
                 duration := c.duration + r.duration
                 switchpointsList := c.switchpointsList ++ [c.duration + r.duration] }

/-- The common body of `ParabolicCurve::ParabolicCurve` and
`ParabolicCurve::Initialize` once the input is known non-empty: start from
cleared aggregates and the singleton table `[0]`, run the accumulation loop,
take `v0` from the first and `v1` from the last input ramp, then chain the
positions with `SetInitialValue(rampsIn[0].x0)`. -/
def ParabolicCurve.fromRamps (rampsIn : List Ramp) : ParabolicCurve :=
  let c0 : ParabolicCurve :=
    { ramps := []
      switchpointsList := [0]
      x0 := 0
      x1 := 0
      v0 := 0
      v1 := 0
      d := 0
      duration := 0 }
  let c1 := buildCurveLoop rampsIn c0
  ParabolicCurve.SetInitialValue
    { c1 with v0 := rampsIn.headI.v0, v1 := (rampsIn.getLast?.getD default).v1 }
    rampsIn.headI.x0

/-- `ParabolicCurve::ParabolicCurve(rampsIn)`: asserts `!rampsIn.empty()`
before reading anything from the input. -/
def ParabolicCurve.mk? (rampsIn : List Ramp) : Except Err ParabolicCurve :=
  if rampsIn.isEmpty then .error .assertionFailure
  else .ok (ParabolicCurve.fromRamps rampsIn)

/-- `ParabolicCurve::Initialize(rampsIn)`: performs NO emptiness check; its
read of `rampsIn.front()` is an out-of-range access when the input is empty.
On non-empty input the result coincides with the constructor's. -/
def ParabolicCurve.InitializeC (_c : ParabolicCurve) (rampsIn : List Ramp) :
    Except Err ParabolicCurve :=
  if rampsIn.isEmpty then .error .outOfRangeAccess
  else .ok (ParabolicCurve.fromRamps rampsIn)

/-- `ParabolicCurve::Reset()`: zero every scalar field and clear both
sequences. -/
def ParabolicCurve.Reset (_c : ParabolicCurve) : ParabolicCurve :=
  { ramps := []
    switchpointsList := []
    x0 := 0
    x1 := 0
    v0 := 0
    v1 := 0
    d := 0
    duration := 0 }

/-- `ParabolicCurve::Append(curve)`: asserts the argument is non-empty.  If
this curve is empty it first clears `d`/`duration`, pushes `0` onto the
switch-point table and takes `x0` from the argument's first ramp.  Then the
shared accumulation loop appends the argument's ramps, `v1` is taken from the
argument, and `SetInitialValue(x0)` rechains the positions.  Note that `v0`
is never assigned. -/
def ParabolicCurve.Append (c curve : ParabolicCurve) : Except Err ParabolicCurve :=
  if curve.IsEmpty then .error .assertionFailure
  else
    let c1 :=
      if c.ramps.length = 0 then
        { c with d := 0
                 duration := 0
                 switchpointsList := c.switchpointsList ++ [0]
                 x0 := curve.ramps.headI.x0 }
      else c
    let c2 := buildCurveLoop curve.ramps c1
    .ok (ParabolicCurve.SetInitialValue { c2 with v1 := curve.v1 } c2.x0)

/-- `ParabolicCurve::FindRampIndex(t, index, remainder)`: asserts
`-epsilon <= t <= duration + epsilon`; `t < epsilon` yields `(0, 0)`;
`t > duration - epsilon` yields the last ramp with its full duration as the
remainder (`ramps.back()` being an out-of-range access on an empty curve);
otherwise the linear scan advances past every switch point `< t`, asserts it
did not fall off the table, and returns the preceding interval (dereferencing
`it - 1` is out of range when the scan never advanced). -/
def ParabolicCurve.FindRampIndex (c : ParabolicCurve) (eps t : ℚ) :
    Except Err (ℤ × ℚ) :=
  if -eps ≤ t ∧ t ≤ c.duration + eps then
    if t < eps then .ok (0, 0)
    else if c.duration - eps < t then
      match c.ramps.getLast? with
      | some r => .ok ((c.ramps.length : ℤ) - 1, r.duration)
      | none => .error .outOfRangeAccess
    else
      let idx := (c.switchpointsList.takeWhile (fun sp => t > sp)).length
      if idx < c.switchpointsList.length then
        if idx = 0 then .error .outOfRangeAccess
        else .ok ((idx : ℤ) - 1, t - c.switchpointsList.getD (idx - 1) 0)
      else .error .assertionFailure
  else .error .assertionFailure

/-- `ParabolicCurve::EvalPos(t)`: asserts the range, clamps to `x0`/`x1` at
the boundaries, and otherwise delegates to the ramp found by
`FindRampIndex`. -/
def ParabolicCurve.EvalPos (c : ParabolicCurve) (eps t : ℚ) : Except Err ℚ :=
  if -eps ≤ t ∧ t ≤ c.duration + eps then
    if t ≤ 0 then .ok c.x0
    else if c.duration ≤ t then .ok c.x1
    else do
      let ir ← c.FindRampIndex eps t
      if 0 ≤ ir.1 then
        match c.ramps.get? ir.1.toNat with
        | some r => r.EvalPos eps ir.2
        | none => .error .outOfRangeAccess
      else .error .outOfRangeAccess
  else .error .assertionFailure

/-- The fold of `ParabolicCurve::GetPeaks`: running minimum/maximum of the
per-ramp peaks, the accumulator `none` standing for the initial
`(inf, -inf)` pair. -/
def curveGetPeaksLoop (eps : ℚ) : List Ramp → Option (ℚ × ℚ) →
    Except Err (Option (ℚ × ℚ))
  | [], acc => .ok acc
  | r :: rs, acc => do
      let p ← r.GetPeaks eps
      let acc' := match acc with
        | none => some p
        | some (bmin, bmax) =>
            some (if p.1 < bmin then p.1 else bmin,
                  if p.2 > bmax then p.2 else bmax)
      curveGetPeaksLoop eps rs acc'

/-- `ParabolicCurve::GetPeaks(bmin, bmax)`: fold the per-ramp peaks; the
final `RAMP_OPTIM_ASSERT(bmin < inf)` fails exactly when no ramp updated the
accumulator. -/
def ParabolicCurve.GetPeaks (c : ParabolicCurve) (eps : ℚ) :
    Except Err (ℚ × ℚ) := do
  let acc ← curveGetPeaksLoop eps c.ramps none
  match acc with
  | some p => .ok p
  | none => .error .assertionFailure

/-- The multi-axis object: one curve per degree of freedom plus the per-axis
aggregate vectors, the merged switch-point table and the two planner flags,
mirroring the C++ data members (`ndof` is the `int` cast of the curve
count). -/
structure ParabolicCurvesND where
  ndof : Nat
  curves : List ParabolicCurve
  duration : ℚ
  x0Vect : List ℚ
  x1Vect : List ℚ
  v0Vect : List ℚ
  v1Vect : List ℚ
  dVect : List ℚ
  switchpointsList : List ℚ
  constraintchecked : Int
  modified : Int
deriving DecidableEq, Repr, Inhabited

/-- The duration-checking loop of the `ParabolicCurvesND` constructor: from
the second curve on, assert `FuzzyEquals(it->duration, minDur, epsilon)` and
lower the running minimum. -/
def durCheckLoop (eps : ℚ) : List ParabolicCurve → ℚ → Except Err ℚ
  | [], minDur => .ok minDur
  | c :: cs, minDur =>
      if FuzzyEquals c.duration minDur eps then
        durCheckLoop eps cs (min minDur c.duration)
      else .error .assertionFailure

/-- One step of the switch-point merge: `std::lower_bound` locates the first
table entry `>= v`; dereferencing it is out of range when `v` exceeds every
entry; if the entry found is not fuzzily equal to `v`, `v` is inserted in
front of it. -/
def fuzzyInsertSwitchPoint (eps v : ℚ) (l : List ℚ) : Except Err (List ℚ) :=
  let pre := l.takeWhile (fun x => x < v)
  match l.drop pre.length with
  | [] => .error .outOfRangeAccess
  | w :: post =>
      if FuzzyEquals v w eps then .ok l else .ok (pre ++ v :: w :: post)

/-- The switch-point merging loops of the `ParabolicCurvesND` constructor:
for every axis (including axis 0 itself), fuzzily insert each interior switch
point (second to second-last entry) into the merged table. -/
def mergeSwitchPoints (eps : ℚ) : List ParabolicCurve → List ℚ →
    Except Err (List ℚ)
  | [], sw => .ok sw
  | c :: cs, sw => do
      let sw' ← (c.switchpointsList.drop 1).dropLast.foldlM
        (fun acc v => fuzzyInsertSwitchPoint eps v acc) sw
      mergeSwitchPoints eps cs sw'

/-- `ParabolicCurvesND::ParabolicCurvesND(curvesIn)`: asserts the input
non-empty, runs the duration check against the running minimum, copies the
curves, sets `duration` to the minimum, fills the per-axis aggregate vectors,
and merges the switch-point tables starting from axis 0's table. -/
def ParabolicCurvesND.mk? (eps : ℚ) (curvesIn : List ParabolicCurve) :
    Except Err ParabolicCurvesND :=
  match curvesIn with
  | [] => .error .assertionFailure
  | c0 :: rest => do
      let minDur ← durCheckLoop eps rest c0.duration
      let sw ← mergeSwitchPoints eps (c0 :: rest) c0.switchpointsList
      .ok { ndof := (c0 :: rest).length
            curves := c0 :: rest
            duration := minDur
            x0Vect := (c0 :: rest).map (fun c => c.x0)
            x1Vect := (c0 :: rest).map (fun c => c.x1)
            v0Vect := (c0 :: rest).map (fun c => c.v0)
            v1Vect := (c0 :: rest).map (fun c => c.v1)
            dVect := (c0 :: rest).map (fun c => c.d)
            switchpointsList := sw
            constraintchecked := 0
            modified := 0 }

/-- `std::vector<Real>::resize(n)`: truncate or pad with value-initialized
(`0`) elements. -/
def resizeQ (l : List ℚ) (n : Nat) : List ℚ :=
  l.take n ++ List.replicate (n - l.length) 0

/-- The loop of `ParabolicCurvesND::GetPeaks`: at step `i` the references
`bminVect[i]` and `bmaxVect[i]` are formed (out of range unless `i` is below
both lengths) and `curves[i].GetPeaks` writes through them.  The first
argument counts the remaining iterations. -/
def ndGetPeaksLoop (eps : ℚ) (curves : List ParabolicCurve) :
    Nat → Nat → List ℚ → List ℚ → Except Err (List ℚ × List ℚ)
  | 0, _, bmin, bmax => .ok (bmin, bmax)
  | k + 1, i, bmin, bmax =>
      if i < bmin.length ∧ i < bmax.length then
        match curves.get? i with
        | some c => do
            let p ← c.GetPeaks eps
            ndGetPeaksLoop eps curves k (i + 1) (bmin.set i p.1) (bmax.set i p.2)
        | none => .error .outOfRangeAccess
      else .error .outOfRangeAccess

/-- `ParabolicCurvesND::GetPeaks(bminVect, bmaxVect)`: resizes `bminVect`
twice (and `bmaxVect` not at all), then runs the per-axis loop `ndof`
times. -/
def ParabolicCurvesND.GetPeaksND (nd : ParabolicCurvesND) (eps : ℚ)
    (bminVect bmaxVect : List ℚ) : Except Err (List ℚ × List ℚ) :=
  let bmin := resizeQ (resizeQ bminVect nd.ndof) nd.ndof
  ndGetPeaksLoop eps nd.curves nd.ndof 0 bmin bmaxVect

/-- Consistency of a ramp's two velocity/displacement derived fields with its
four given fields. -/
def Ramp.ConsistentVD (r : Ramp) : Prop :=
  r.v1 = r.v0 + r.a * r.duration ∧ r.d = r.duration * (r.v0 + (1/2) * r.a * r.duration)

/-- Full consistency of a ramp's derived fields, including `x1 = x0 + d`. -/
def Ramp.Consistent (r : Ramp) : Prop :=
  r.ConsistentVD ∧ r.x1 = r.x0 + r.d

instance (r : Ramp) : Decidable r.ConsistentVD := by
  unfold Ramp.ConsistentVD; infer_instance

instance (r : Ramp) : Decidable r.Consistent := by
  unfold Ramp.Consistent; infer_instance

/-- Cumulative times of a ramp list starting from `acc`: the switch points
the accumulation loop appends. -/
def cumList : List Ramp → ℚ → List ℚ
  | [], _ => []
  | r :: rs, acc => (acc + r.duration) :: cumList rs (acc + r.duration)

/-- The middle-branch lookup as the spec words it: the first switch point
STRICTLY exceeding `t` determines the ramp index, and the remainder is `t`
minus that ramp's starting switch point. -/
def specFindRampIndexMiddle (c : ParabolicCurve) (t : ℚ) : ℤ × ℚ :=
  let j := (c.switchpointsList.takeWhile (fun sp => sp ≤ t)).length
  ((j : ℤ) - 1, t - c.switchpointsList.getD (j - 1) 0)

/-- Minimum of the durations of a curve list, seeded with `d0` (the running
minimum the ND constructor maintains). -/
def minOfDurations (l : List ParabolicCurve) (d0 : ℚ) : ℚ :=
  l.foldl (fun m c => min m c.duration) d0

/-- A one-ramp curve of the given total duration (zero velocity and
acceleration), used to exercise the ND constructor's duration check. -/
def unitCurve (dur : ℚ) : ParabolicCurve :=
  ParabolicCurve.fromRamps [Ramp.make 0 0 dur 0]

/-- The two-ramp example curve of the spec: durations `[1, 2]`, `v0 = 0,
a = 1` then `v0 = 2, a = 0`. -/
def exCurve12 : ParabolicCurve :=
  ParabolicCurve.fromRamps [Ramp.make 0 1 1 0, Ramp.make 2 0 2 0]

/-- A concrete one-axis multi-curve object, for exercising `GetPeaksND`. -/
def ndExample : ParabolicCurvesND :=
  { ndof := 1
    curves := [unitCurve 1]
    duration := 1
    x0Vect := [0]
    x1Vect := [0]
    v0Vect := [0]
    v1Vect := [0]
    dVect := [0]
    switchpointsList := [0, 1]
    constraintchecked := 0
    modified := 0 }

/-! ## Structural lemmas about the shared loops -/

theorem setRampListX0_length (l : List Ramp) (x : ℚ) :
    (setRampListX0 l x).length = l.length := by
  induction l generalizing x with
  | nil => rfl
  | cons r rs ih => simp [setRampListX0, ih]

theorem setRampListX0_map_d (l : List Ramp) (x : ℚ) :
    (setRampListX0 l x).map Ramp.d = l.map Ramp.d := by
  induction l generalizing x with
  | nil => rfl
  | cons r rs ih => simp [setRampListX0, ih]

theorem setRampListX0_map_duration (l : List Ramp) (x : ℚ) :
    (setRampListX0 l x).map Ramp.duration = l.map Ramp.duration := by
  induction l generalizing x with
  | nil => rfl
  | cons r rs ih => simp [setRampListX0, ih]

/-- Rebasing a rebased ramp list is the same as rebasing the original list:
only the `x0` members were overwritten and the walk depends only on `d`. -/
theorem setRampListX0_setRampListX0 (l : List Ramp) (x y : ℚ) :
    setRampListX0 (setRampListX0 l x) y = setRampListX0 l y := by
  induction l generalizing x y with
  | nil => rfl
  | cons r rs ih => simp [setRampListX0, ih]

/-- The `i`-th ramp after the rebase walk: `x0` becomes the given value plus
the displacements of the earlier ramps, every other member is untouched. -/
theorem setRampListX0_getD (l : List Ramp) (x : ℚ) (i : Nat)
    (h : i < l.length) :
    (setRampListX0 l x).getD i default =
      { l.getD i default with x0 := x + ((l.take i).map Ramp.d).sum } := by
  induction l generalizing x i with
  | nil => simp at h
  | cons r rs ih =>
      cases i with
      | zero => simp [setRampListX0]
      | succ i =>
          have h' : i < rs.length := by simpa using h
          simp only [setRampListX0, List.getD_cons_succ, List.take_succ_cons,
            List.map_cons, List.sum_cons]
          rw [ih (x + r.d) i h']
          ring_nf

/-- Every ramp of the rebased list matches a ramp of the original list in all
members except possibly `x0`. -/
theorem mem_setRampListX0 (l : List Ramp) (x : ℚ) (r' : Ramp)
    (h : r' ∈ setRampListX0 l x) :
    ∃ r ∈ l, r'.v0 = r.v0 ∧ r'.a = r.a ∧ r'.duration = r.duration ∧
      r'.v1 = r.v1 ∧ r'.d = r.d ∧ r'.x1 = r.x1 := by
  induction l generalizing x with
  | nil => simp [setRampListX0] at h
  | cons r rs ih =>
      simp only [setRampListX0, List.mem_cons] at h
      rcases h with h | h
      · exact ⟨r, List.mem_cons_self r rs, by subst h; exact ⟨rfl, rfl, rfl, rfl, rfl, rfl⟩⟩
      · obtain ⟨r0, hr0, hf⟩ := ih (x + r.d) h
        exact ⟨r0, List.mem_cons_of_mem r hr0, hf⟩

/-- `cumList` over a shifted start is the pointwise shift. -/
theorem cumList_shift (rs : List Ramp) (o acc : ℚ) :
    cumList rs (o + acc) = (cumList rs acc).map (fun v => o + v) := by
  induction rs generalizing acc with
  | nil => rfl
  | cons r rs ih =>
      simp only [cumList, List.map_cons, List.cons.injEq]
      refine ⟨by ring, ?_⟩
      rw [add_assoc, ih]

/-- `cumList` only reads the durations, which the rebase walk preserves. -/
theorem cumList_setRampListX0 (l : List Ramp) (x acc : ℚ) :
    cumList (setRampListX0 l x) acc = cumList l acc := by
  induction l generalizing x acc with
  | nil => rfl
  | cons r rs ih => simp [setRampListX0, cumList, ih]

/-- Effect of the shared accumulation loop on every field of the curve. -/
theorem buildCurveLoop_spec (rs : List Ramp) (c : ParabolicCurve) :
    (buildCurveLoop rs c).ramps = c.ramps ++ rs ∧
    (buildCurveLoop rs c).d = c.d + (rs.map Ramp.d).sum ∧
    (buildCurveLoop rs c).duration = c.duration + (rs.map Ramp.duration).sum ∧
    (buildCurveLoop rs c).switchpointsList
      = c.switchpointsList ++ cumList rs c.duration ∧
    (buildCurveLoop rs c).x0 = c.x0 ∧
    (buildCurveLoop rs c).x1 = c.x1 ∧
    (buildCurveLoop rs c).v0 = c.v0 ∧
    (buildCurveLoop rs c).v1 = c.v1 := by
  induction rs generalizing c with
  | nil => simp [buildCurveLoop, cumList]
  | cons r rs ih =>
      rw [buildCurveLoop]
      obtain ⟨h1, h2, h3, h4, h5, h6, h7, h8⟩ := ih
        { c with ramps := c.ramps ++ [r]
                 d := c.d + r.d
                 duration := c.duration + r.duration
                 switchpointsList := c.switchpointsList ++ [c.duration + r.duration] }
      refine ⟨?_, ?_, ?_, ?_, ?_, ?_, ?_, ?_⟩
      · rw [h1]; simp
      · rw [h2]; simp; ring
      · rw [h3]; simp; ring
      · rw [h4]; simp [cumList]
      · rw [h5]
      · rw [h6]
      · rw [h7]
      · rw [h8]

theorem buildCurveLoop_ramps (rs : List Ramp) (c : ParabolicCurve) :
    (buildCurveLoop rs c).ramps = c.ramps ++ rs := (buildCurveLoop_spec rs c).1

theorem buildCurveLoop_d (rs : List Ramp) (c : ParabolicCurve) :
    (buildCurveLoop rs c).d = c.d + (rs.map Ramp.d).sum :=
  (buildCurveLoop_spec rs c).2.1

theorem buildCurveLoop_duration (rs : List Ramp) (c : ParabolicCurve) :
    (buildCurveLoop rs c).duration = c.duration + (rs.map Ramp.duration).sum :=
  (buildCurveLoop_spec rs c).2.2.1

theorem buildCurveLoop_switchpoints (rs : List Ramp) (c : ParabolicCurve) :
    (buildCurveLoop rs c).switchpointsList
      = c.switchpointsList ++ cumList rs c.duration :=
  (buildCurveLoop_spec rs c).2.2.2.1

theorem buildCurveLoop_x0 (rs : List Ramp) (c : ParabolicCurve) :
    (buildCurveLoop rs c).x0 = c.x0 := (buildCurveLoop_spec rs c).2.2.2.2.1

theorem buildCurveLoop_x1 (rs : List Ramp) (c : ParabolicCurve) :
    (buildCurveLoop rs c).x1 = c.x1 := (buildCurveLoop_spec rs c).2.2.2.2.2.1

theorem buildCurveLoop_v0 (rs : List Ramp) (c : ParabolicCurve) :
    (buildCurveLoop rs c).v0 = c.v0 := (buildCurveLoop_spec rs c).2.2.2.2.2.2.1

theorem buildCurveLoop_v1 (rs : List Ramp) (c : ParabolicCurve) :
    (buildCurveLoop rs c).v1 = c.v1 := (buildCurveLoop_spec rs c).2.2.2.2.2.2.2

/-- Every field of a curve built by the shared constructor body. -/
theorem fromRamps_spec (l : List Ramp) :
    (ParabolicCurve.fromRamps l).ramps = setRampListX0 l l.headI.x0 ∧
    (ParabolicCurve.fromRamps l).switchpointsList = 0 :: cumList l 0 ∧
    (ParabolicCurve.fromRamps l).x0 = l.headI.x0 ∧
    (ParabolicCurve.fromRamps l).x1 = l.headI.x0 + (l.map Ramp.d).sum ∧
    (ParabolicCurve.fromRamps l).v0 = l.headI.v0 ∧
    (ParabolicCurve.fromRamps l).v1 = (l.getLast?.getD default).v1 ∧
    (ParabolicCurve.fromRamps l).d = (l.map Ramp.d).sum ∧
    (ParabolicCurve.fromRamps l).duration = (l.map Ramp.duration).sum := by
  obtain ⟨h1, h2, h3, h4, h5, h6, h7, h8⟩ := buildCurveLoop_spec l
    { ramps := [], switchpointsList := [0], x0 := 0, x1 := 0, v0 := 0,
      v1 := 0, d := 0, duration := 0 }
  simp [ParabolicCurve.fromRamps, ParabolicCurve.SetInitialValue,
    h1, h2, h3, h4, List.singleton_append]

/-! ## Basic evaluation lemmas -/

/-- On a freshly constructed ramp, `EvalPos` agrees with the closed-form
quadratic everywhere on `[0, duration]` (the boundary clamps return the same
value because `x1` is exactly `x0 + d` there). -/
theorem evalPos_make (v0 a T x0 eps t : ℚ) (heps : 0 ≤ eps) (h0 : 0 ≤ t)
    (hT : t ≤ T) :
    (Ramp.make v0 a T x0).EvalPos eps t = .ok (t * (v0 + (1/2) * a * t) + x0) := by
  rw [Ramp.EvalPos]
  simp only [Ramp.make]
  rw [if_pos (by constructor <;> linarith)]
  rcases le_or_lt t 0 with ht0 | ht0
  · have ht : t = 0 := le_antisymm ht0 h0
    subst ht
    rw [if_pos le_rfl]
    simp only [Except.ok.injEq]
    ring
  · rw [if_neg (by linarith)]
    rcases le_or_lt T t with htT | htT
    · have ht : t = T := le_antisymm hT htT
      subst ht
      rw [if_pos le_rfl]
      simp only [Except.ok.injEq]
      ring
    · rw [if_neg (by linarith)]

/-- Companion lemma for `EvalVel` on a freshly constructed ramp. -/
theorem evalVel_make (v0 a T x0 eps t : ℚ) (heps : 0 ≤ eps) (h0 : 0 ≤ t)
    (hT : t ≤ T) :
    (Ramp.make v0 a T x0).EvalVel eps t = .ok (v0 + a * t) := by
  rw [Ramp.EvalVel]
  simp only [Ramp.make]
  rw [if_pos (by constructor <;> linarith)]
  rcases le_or_lt t 0 with ht0 | ht0
  · have ht : t = 0 := le_antisymm ht0 h0
    subst ht
    rw [if_pos le_rfl]
    simp only [Except.ok.injEq]
    ring
  · rw [if_neg (by linarith)]
    rcases le_or_lt T t with htT | htT
    · have ht : t = T := le_antisymm hT htT
      subst ht
      rw [if_pos le_rfl]
    · rw [if_neg (by linarith)]

/-- The rebase walk preserves the velocity/displacement consistency of every
ramp (it rewrites only `x0`). -/
theorem consistentVD_setRampListX0 (l : List Ramp) (x : ℚ)
    (h : ∀ r ∈ l, r.ConsistentVD) :
    ∀ r' ∈ setRampListX0 l x, r'.ConsistentVD := by
  intro r' hr'
  obtain ⟨r, hr, hv0, ha, hdur, hv1, hd, _⟩ := mem_setRampListX0 l x r' hr'
  obtain ⟨e1, e2⟩ := h r hr
  exact ⟨by rw [hv0, ha, hdur, hv1, e1], by rw [hv0, ha, hdur, hd, e2]⟩

/-- C3 (amended): the velocity/displacement derived fields `v1` and `d` of
every ramp held by a ParabolicCurve stay consistent with the four given
fields after construction (`fromRamps`), `SetInitialValue` and `Append`; but
`SetInitialValue` rewrites each held ramp's `x0` while leaving every other
member — including the derived `x1` — untouched, so `x1` is NOT recomputed
from the new `x0`. -/
theorem ramp_derived_fields_after_ops (c B : ParabolicCurve) (x : ℚ)
    (rampsIn : List Ramp)
    (hc : ∀ r ∈ c.ramps, r.ConsistentVD)
    (hin : ∀ r ∈ rampsIn, r.ConsistentVD)
    (hB : ∀ r ∈ B.ramps, r.ConsistentVD) :
    (∀ r ∈ (c.SetInitialValue x).ramps, r.ConsistentVD) ∧
    (∀ r ∈ (ParabolicCurve.fromRamps rampsIn).ramps, r.ConsistentVD) ∧
    (∀ A', c.Append B = .ok A' → ∀ r ∈ A'.ramps, r.ConsistentVD) ∧
    (∀ i, i < c.ramps.length →
      ((c.SetInitialValue x).ramps.getD i default).v0 = (c.ramps.getD i default).v0 ∧
      ((c.SetInitialValue x).ramps.getD i default).a = (c.ramps.getD i default).a ∧
      ((c.SetInitialValue x).ramps.getD i default).duration
        = (c.ramps.getD i default).duration ∧
      ((c.SetInitialValue x).ramps.getD i default).v1 = (c.ramps.getD i default).v1 ∧
      ((c.SetInitialValue x).ramps.getD i default).d = (c.ramps.getD i default).d ∧
      ((c.SetInitialValue x).ramps.getD i default).x1 = (c.ramps.getD i default).x1) := by
  refine ⟨?_, ?_, ?_, ?_⟩
  · exact consistentVD_setRampListX0 c.ramps x hc
  · obtain ⟨h1, -⟩ := fromRamps_spec rampsIn
    rw [h1]
    exact consistentVD_setRampListX0 rampsIn rampsIn.headI.x0 hin
  · intro A' hA'
    rw [ParabolicCurve.Append] at hA'
    by_cases hBe : B.IsEmpty
    · rw [if_pos hBe] at hA'
      exact absurd hA' (by simp)
    · rw [if_neg hBe] at hA'
      simp only [Except.ok.injEq] at hA'
      subst hA'
      simp only [ParabolicCurve.SetInitialValue]
      intro r' hr'
      obtain ⟨hrl, -⟩ := buildCurveLoop_spec B.ramps
        (if c.ramps.length = 0 then
          { c with d := 0
                   duration := 0
                   switchpointsList := c.switchpointsList ++ [0]
                   x0 := B.ramps.headI.x0 }
         else c)
      rw [hrl] at hr'
      refine consistentVD_setRampListX0 _ _ ?_ r' hr'
      intro r hr
      rcases List.mem_append.mp (by
        by_cases hce : c.ramps.length = 0
        · rw [if_pos hce] at hr; exact hr
        · rw [if_neg hce] at hr; exact hr) with h | h
      · exact hc r h
      · exact hB r h
  · intro i hi
    simp only [ParabolicCurve.SetInitialValue]
    rw [setRampListX0_getD c.ramps x i hi]
    exact ⟨rfl, rfl, rfl, rfl, rfl, rfl⟩

/-- Witness for the amended C3, at a two-ramp curve rebased to `7`. -/
theorem ramp_derived_fields_after_ops_witness :
    ((∀ r ∈ (ParabolicCurve.fromRamps [Ramp.make 0 1 1 0]).ramps, r.ConsistentVD) ∧
     (∀ r ∈ [Ramp.make 2 0 2 0], r.ConsistentVD) ∧
     (∀ r ∈ (ParabolicCurve.fromRamps [Ramp.make 1 0 1 3]).ramps, r.ConsistentVD)) ∧
    ((∀ r ∈ ((ParabolicCurve.fromRamps [Ramp.make 0 1 1 0]).SetInitialValue 7).ramps,
        r.ConsistentVD) ∧
     (∀ r ∈ (ParabolicCurve.fromRamps [Ramp.make 2 0 2 0]).ramps, r.ConsistentVD) ∧
     (∀ A', (ParabolicCurve.fromRamps [Ramp.make 0 1 1 0]).Append
         (ParabolicCurve.fromRamps [Ramp.make 1 0 1 3]) = .ok A' →
       ∀ r ∈ A'.ramps, r.ConsistentVD) ∧
     (∀ i, i < (ParabolicCurve.fromRamps [Ramp.make 0 1 1 0]).ramps.length →
      (((ParabolicCurve.fromRamps [Ramp.make 0 1 1 0]).SetInitialValue 7).ramps.getD i default).v0
        = ((ParabolicCurve.fromRamps [Ramp.make 0 1 1 0]).ramps.getD i default).v0 ∧
      (((ParabolicCurve.fromRamps [Ramp.make 0 1 1 0]).SetInitialValue 7).ramps.getD i default).a
        = ((ParabolicCurve.fromRamps [Ramp.make 0 1 1 0]).ramps.getD i default).a ∧
      (((ParabolicCurve.fromRamps [Ramp.make 0 1 1 0]).SetInitialValue 7).ramps.getD i default).duration
        = ((ParabolicCurve.fromRamps [Ramp.make 0 1 1 0]).ramps.getD i default).duration ∧
      (((ParabolicCurve.fromRamps [Ramp.make 0 1 1 0]).SetInitialValue 7).ramps.getD i default).v1
        = ((ParabolicCurve.fromRamps [Ramp.make 0 1 1 0]).ramps.getD i default).v1 ∧
      (((ParabolicCurve.fromRamps [Ramp.make 0 1 1 0]).SetInitialValue 7).ramps.getD i default).d
        = ((ParabolicCurve.fromRamps [Ramp.make 0 1 1 0]).ramps.getD i default).d ∧
      (((ParabolicCurve.fromRamps [Ramp.make 0 1 1 0]).SetInitialValue 7).ramps.getD i default).x1
        = ((ParabolicCurve.fromRamps [Ramp.make 0 1 1 0]).ramps.getD i default).x1)) :=
  ⟨⟨by norm_num [ParabolicCurve.fromRamps, buildCurveLoop,
      ParabolicCurve.SetInitialValue, setRampListX0, Ramp.make, Ramp.ConsistentVD],
    by norm_num [Ramp.make, Ramp.ConsistentVD],
    by norm_num [ParabolicCurve.fromRamps, buildCurveLoop,
      ParabolicCurve.SetInitialValue, setRampListX0, Ramp.make, Ramp.ConsistentVD]⟩,
   ramp_derived_fields_after_ops
     (ParabolicCurve.fromRamps [Ramp.make 0 1 1 0])
     (ParabolicCurve.fromRamps [Ramp.make 1 0 1 3]) 7 [Ramp.make 2 0 2 0]
     (by norm_num [ParabolicCurve.fromRamps, buildCurveLoop,
       ParabolicCurve.SetInitialValue, setRampListX0, Ramp.make, Ramp.ConsistentVD])
     (by norm_num [Ramp.make, Ramp.ConsistentVD])
     (by norm_num [ParabolicCurve.fromRamps, buildCurveLoop,
       ParabolicCurve.SetInitialValue, setRampListX0, Ramp.make, Ramp.ConsistentVD])⟩

/-- Counterexample to C3 as stated: after
`SetInitialValue 5` on the one-ramp curve built from `Ramp(0, 0, 1, 0)`, the
held ramp has `x0 = 5`, `d = 0` but still `x1 = 0`, so `x1 = x0 + d`
fails. -/
theorem ramp_x1_stale_after_setInitialValue :
    ¬ (∀ r ∈ ((ParabolicCurve.fromRamps [Ramp.make 0 0 1 0]).SetInitialValue 5).ramps,
        r.x1 = r.x0 + r.d) := by
  intro h
  have := h (((ParabolicCurve.fromRamps [Ramp.make 0 0 1 0]).SetInitialValue 5).ramps.getD 0 default)
    (by norm_num [ParabolicCurve.fromRamps, buildCurveLoop,
      ParabolicCurve.SetInitialValue, setRampListX0, Ramp.make])
  norm_num [ParabolicCurve.fromRamps, buildCurveLoop,
    ParabolicCurve.SetInitialValue, setRampListX0, Ramp.make] at this

/-- C9: `SetInitialValue` is idempotent — reapplying the same `x0` is the
identity on the already-rebased curve; after any application ramp `i`'s `x0`
is the given value plus the displacements of ramps `0..i-1`, and the curve
satisfies `x1 = x0 + d`. -/
theorem setInitialValue_idempotent (c : ParabolicCurve) (x : ℚ)
    (_hne : c.ramps ≠ []) :
    (c.SetInitialValue x).SetInitialValue x = c.SetInitialValue x ∧
    (∀ i, i < c.ramps.length →
      ((c.SetInitialValue x).ramps.getD i default).x0
        = x + ((c.ramps.take i).map Ramp.d).sum) ∧
    (c.SetInitialValue x).x1
      = (c.SetInitialValue x).x0 + (c.SetInitialValue x).d := by
  refine ⟨?_, ?_, rfl⟩
  · simp [ParabolicCurve.SetInitialValue, setRampListX0_setRampListX0]
  · intro i hi
    simp only [ParabolicCurve.SetInitialValue]
    rw [setRampListX0_getD c.ramps x i hi]

/-- Witness for C9 on the two-ramp example curve rebased to `7`. -/
theorem setInitialValue_idempotent_witness :
    exCurve12.ramps ≠ [] ∧
    ((exCurve12.SetInitialValue 7).SetInitialValue 7 = exCurve12.SetInitialValue 7 ∧
     (∀ i, i < exCurve12.ramps.length →
       ((exCurve12.SetInitialValue 7).ramps.getD i default).x0
         = 7 + ((exCurve12.ramps.take i).map Ramp.d).sum) ∧
     (exCurve12.SetInitialValue 7).x1
       = (exCurve12.SetInitialValue 7).x0 + (exCurve12.SetInitialValue 7).d) :=
  ⟨by simp [exCurve12, ParabolicCurve.fromRamps, buildCurveLoop,
      ParabolicCurve.SetInitialValue, setRampListX0, Ramp.make],
   setInitialValue_idempotent exCurve12 7
     (by simp [exCurve12, ParabolicCurve.fromRamps, buildCurveLoop,
       ParabolicCurve.SetInitialValue, setRampListX0, Ramp.make])⟩

theorem setRampListX0_ne_nil (l : List Ramp) (x : ℚ) (h : l ≠ []) :
    setRampListX0 l x ≠ [] := by
  cases l with
  | nil => exact absurd rfl h
  | cons r rs => simp [setRampListX0]

theorem setRampListX0_headI_x0 (l : List Ramp) (x : ℚ) (h : l ≠ []) :
    (setRampListX0 l x).headI.x0 = x := by
  cases l with
  | nil => exact absurd rfl h
  | cons r rs => rfl

theorem setRampListX0_map_v1 (l : List Ramp) (x : ℚ) :
    (setRampListX0 l x).map Ramp.v1 = l.map Ramp.v1 := by
  induction l generalizing x with
  | nil => rfl
  | cons r rs ih => simp [setRampListX0, ih]

/-- The last ramp's `v1` survives the rebase walk. -/
theorem setRampListX0_getLast_v1 (l : List Ramp) (x : ℚ) (h : l ≠ []) :
    ((setRampListX0 l x).getLast?.getD default).v1
      = (l.getLast?.getD default).v1 := by
  have hm : (setRampListX0 l x).getLast?.map Ramp.v1 = l.getLast?.map Ramp.v1 := by
    rw [← List.getLast?_map, ← List.getLast?_map, setRampListX0_map_v1]
  obtain ⟨r, hr⟩ := List.getLast?_isSome.mpr h |> Option.isSome_iff_exists.mp
  obtain ⟨r', hr'⟩ := List.getLast?_isSome.mpr (setRampListX0_ne_nil l x h)
    |> Option.isSome_iff_exists.mp
  rw [hr, hr'] at hm ⊢
  simpa using hm

/-- C6 (amended): the ParabolicCurve constructor fails with an
assertion-style precondition check before reading anything from an empty
input, but `Initialize` performs no emptiness check: on an empty input its
first read of the input (`rampsIn.front()`) is an out-of-range access. -/
theorem curve_empty_input_handling (c : ParabolicCurve) :
    ParabolicCurve.mk? [] = .error .assertionFailure ∧
    c.InitializeC [] = .error .outOfRangeAccess :=
  ⟨rfl, rfl⟩

/-- Witness for the amended C6 at the default curve. -/
theorem curve_empty_input_handling_witness :
    ParabolicCurve.mk? [] = .error .assertionFailure ∧
    (default : ParabolicCurve).InitializeC [] = .error .outOfRangeAccess :=
  curve_empty_input_handling (default : ParabolicCurve)

/-- Counterexample to C6 as stated: `Initialize` on an empty ramp sequence
does not stop at an assertion — it reaches the out-of-range read of
`rampsIn.front()`. -/
theorem initialize_empty_is_out_of_range :
    (default : ParabolicCurve).InitializeC [] = .error .outOfRangeAccess ∧
    Err.outOfRangeAccess ≠ Err.assertionFailure :=
  ⟨rfl, by decide⟩

/-- C7: appending a (well-formed, non-empty) curve `B` onto a non-empty
curve `A` adds the durations, extends `A`'s switch-point table by `B`'s
switch points (minus the leading `0`) shifted by the old duration, takes
`v1` from `B`'s final ramp, and accumulates `d` by `B.d`. -/
theorem append_concatenates (A : ParabolicCurve) (rampsB : List Ramp)
    (hA : A.ramps ≠ []) (hB : rampsB ≠ []) :
    ∃ A', A.Append (ParabolicCurve.fromRamps rampsB) = .ok A' ∧
      A'.duration = A.duration + (ParabolicCurve.fromRamps rampsB).duration ∧
      A'.switchpointsList = A.switchpointsList ++
        ((ParabolicCurve.fromRamps rampsB).switchpointsList.tail.map
          (fun v => A.duration + v)) ∧
      A'.v1 = (ParabolicCurve.fromRamps rampsB).v1 ∧
      A'.v1 = ((ParabolicCurve.fromRamps rampsB).ramps.getLast?.getD default).v1 ∧
      A'.d = A.d + (ParabolicCurve.fromRamps rampsB).d := by
  obtain ⟨h1, h2, h3, h4, h5, h6, h7, h8⟩ := fromRamps_spec rampsB
  have hBne : (ParabolicCurve.fromRamps rampsB).ramps ≠ [] := by
    rw [h1]; exact setRampListX0_ne_nil rampsB _ hB
  rw [ParabolicCurve.Append,
    if_neg (by simp [ParabolicCurve.IsEmpty, List.isEmpty_iff, hBne])]
  simp only [List.length_eq_zero]
  rw [if_neg hA]
  refine ⟨_, rfl, ?_, ?_, ?_, ?_, ?_⟩
  · simp only [ParabolicCurve.SetInitialValue, buildCurveLoop_duration, h1,
      setRampListX0_map_duration, h8]
  · simp only [ParabolicCurve.SetInitialValue, buildCurveLoop_switchpoints,
      h1, h2, cumList_setRampListX0, List.tail_cons]
    rw [← cumList_shift rampsB A.duration 0, add_zero]
  · simp only [ParabolicCurve.SetInitialValue]
  · simp only [ParabolicCurve.SetInitialValue, h6, h1,
      setRampListX0_getLast_v1 rampsB _ hB]
  · simp only [ParabolicCurve.SetInitialValue, buildCurveLoop_d, h1,
      setRampListX0_map_d, h7]

/-- Witness for C7: a one-ramp curve appended onto a one-ramp curve. -/
theorem append_concatenates_witness :
    ((ParabolicCurve.fromRamps [Ramp.make 0 1 1 0]).ramps ≠ [] ∧
     ([Ramp.make 2 0 2 5] : List Ramp) ≠ []) ∧
    (∃ A', (ParabolicCurve.fromRamps [Ramp.make 0 1 1 0]).Append
        (ParabolicCurve.fromRamps [Ramp.make 2 0 2 5]) = .ok A' ∧
      A'.duration = (ParabolicCurve.fromRamps [Ramp.make 0 1 1 0]).duration
        + (ParabolicCurve.fromRamps [Ramp.make 2 0 2 5]).duration ∧
      A'.switchpointsList = (ParabolicCurve.fromRamps [Ramp.make 0 1 1 0]).switchpointsList ++
        ((ParabolicCurve.fromRamps [Ramp.make 2 0 2 5]).switchpointsList.tail.map
          (fun v => (ParabolicCurve.fromRamps [Ramp.make 0 1 1 0]).duration + v)) ∧
      A'.v1 = (ParabolicCurve.fromRamps [Ramp.make 2 0 2 5]).v1 ∧
      A'.v1 = ((ParabolicCurve.fromRamps [Ramp.make 2 0 2 5]).ramps.getLast?.getD default).v1 ∧
      A'.d = (ParabolicCurve.fromRamps [Ramp.make 0 1 1 0]).d
        + (ParabolicCurve.fromRamps [Ramp.make 2 0 2 5]).d) :=
  ⟨⟨by simp [ParabolicCurve.fromRamps, buildCurveLoop,
      ParabolicCurve.SetInitialValue, setRampListX0, Ramp.make], by simp⟩,
   append_concatenates (ParabolicCurve.fromRamps [Ramp.make 0 1 1 0])
     [Ramp.make 2 0 2 5]
     (by simp [ParabolicCurve.fromRamps, buildCurveLoop,
       ParabolicCurve.SetInitialValue, setRampListX0, Ramp.make])
     (by simp)⟩

/-- C8 (amended): appending a non-empty curve `B` onto an empty (freshly
reset) curve adopts `B`'s ramps, switch-point table, `x0`, `x1`, `d`,
`duration` and `v1` — but NOT `v0`, which `Append` never assigns, so it
keeps the reset value `0`. -/
theorem append_to_empty_adopts (c : ParabolicCurve) (rampsB : List Ramp)
    (hB : rampsB ≠ []) :
    ∃ A', (ParabolicCurve.Reset c).Append (ParabolicCurve.fromRamps rampsB) = .ok A' ∧
      A'.ramps = (ParabolicCurve.fromRamps rampsB).ramps ∧
      A'.switchpointsList = (ParabolicCurve.fromRamps rampsB).switchpointsList ∧
      A'.x0 = (ParabolicCurve.fromRamps rampsB).x0 ∧
      A'.x1 = (ParabolicCurve.fromRamps rampsB).x1 ∧
      A'.d = (ParabolicCurve.fromRamps rampsB).d ∧
      A'.duration = (ParabolicCurve.fromRamps rampsB).duration ∧
      A'.v1 = (ParabolicCurve.fromRamps rampsB).v1 ∧
      A'.v0 = 0 := by
  obtain ⟨h1, h2, h3, h4, h5, h6, h7, h8⟩ := fromRamps_spec rampsB
  have hBne : (ParabolicCurve.fromRamps rampsB).ramps ≠ [] := by
    rw [h1]; exact setRampListX0_ne_nil rampsB _ hB
  rw [ParabolicCurve.Append,
    if_neg (by simp [ParabolicCurve.IsEmpty, List.isEmpty_iff, hBne])]
  rw [if_pos (by simp [ParabolicCurve.Reset])]
  have hx0 : (ParabolicCurve.fromRamps rampsB).ramps.headI.x0 = rampsB.headI.x0 := by
    rw [h1]; exact setRampListX0_headI_x0 rampsB _ hB
  refine ⟨_, rfl, ?_, ?_, ?_, ?_, ?_, ?_, ?_, ?_⟩
  · simp only [ParabolicCurve.SetInitialValue, buildCurveLoop_ramps,
      buildCurveLoop_x0, ParabolicCurve.Reset, List.nil_append, hx0, h1,
      setRampListX0_headI_x0 rampsB _ hB, setRampListX0_setRampListX0]
  · simp only [ParabolicCurve.SetInitialValue, buildCurveLoop_switchpoints,
      h1, h2, cumList_setRampListX0, ParabolicCurve.Reset]
    simp
  · simp only [ParabolicCurve.SetInitialValue, buildCurveLoop_x0, h3, hx0]
  · simp only [ParabolicCurve.SetInitialValue, buildCurveLoop_x0,
      buildCurveLoop_d, h1, h4, setRampListX0_map_d, hx0,
      setRampListX0_headI_x0 rampsB _ hB, ParabolicCurve.Reset, zero_add]
  · simp only [ParabolicCurve.SetInitialValue, buildCurveLoop_d, h1,
      setRampListX0_map_d, h7, ParabolicCurve.Reset, zero_add]
  · simp only [ParabolicCurve.SetInitialValue, buildCurveLoop_duration, h1,
      setRampListX0_map_duration, h8, ParabolicCurve.Reset, zero_add]
  · simp only [ParabolicCurve.SetInitialValue]
  · simp only [ParabolicCurve.SetInitialValue, buildCurveLoop_v0,
      ParabolicCurve.Reset]

/-- Witness for the amended C8 with a one-ramp `B` of nonzero `v0`. -/
theorem append_to_empty_adopts_witness :
    ([Ramp.make 1 0 1 0] : List Ramp) ≠ [] ∧
    (∃ A', (ParabolicCurve.Reset default).Append
        (ParabolicCurve.fromRamps [Ramp.make 1 0 1 0]) = .ok A' ∧
      A'.ramps = (ParabolicCurve.fromRamps [Ramp.make 1 0 1 0]).ramps ∧
      A'.switchpointsList = (ParabolicCurve.fromRamps [Ramp.make 1 0 1 0]).switchpointsList ∧
      A'.x0 = (ParabolicCurve.fromRamps [Ramp.make 1 0 1 0]).x0 ∧
      A'.x1 = (ParabolicCurve.fromRamps [Ramp.make 1 0 1 0]).x1 ∧
      A'.d = (ParabolicCurve.fromRamps [Ramp.make 1 0 1 0]).d ∧
      A'.duration = (ParabolicCurve.fromRamps [Ramp.make 1 0 1 0]).duration ∧
      A'.v1 = (ParabolicCurve.fromRamps [Ramp.make 1 0 1 0]).v1 ∧
      A'.v0 = 0) :=
  ⟨by simp, append_to_empty_adopts default [Ramp.make 1 0 1 0] (by simp)⟩

/-- Counterexample to C8 as stated: appending the one-ramp curve with
`v0 = 1` onto a freshly reset curve yields `v0 = 0`, not the argument's
`v0 = 1` — `v0` is not among the adopted aggregates. -/
theorem append_to_empty_v0_not_adopted :
    ((ParabolicCurve.Reset default).Append
        (ParabolicCurve.fromRamps [Ramp.make 1 0 1 0])).map ParabolicCurve.v0
      = .ok 0 ∧
    (ParabolicCurve.fromRamps [Ramp.make 1 0 1 0]).v0 = 1 ∧ (0 : ℚ) ≠ 1 := by
  refine ⟨?_, ?_, by norm_num⟩
  · norm_num [ParabolicCurve.Reset, ParabolicCurve.Append, ParabolicCurve.IsEmpty,
      ParabolicCurve.fromRamps, buildCurveLoop, ParabolicCurve.SetInitialValue,
      setRampListX0, Ramp.make, Except.map]
  · norm_num [ParabolicCurve.fromRamps, buildCurveLoop,
      ParabolicCurve.SetInitialValue, setRampListX0, Ramp.make]

/-- Length of the scanned prefix when position `j` holds the first element
that is not below `t`. -/
theorem takeWhile_lt_length (l : List ℚ) (t : ℚ) (j : Nat) (hj : j < l.length)
    (hlt : ∀ k, k < j → l.getD k 0 < t) (hge : t ≤ l.getD j 0) :
    (l.takeWhile (fun sp => t > sp)).length = j := by
  induction l generalizing j with
  | nil => simp at hj
  | cons x xs ih =>
      cases j with
      | zero =>
          rw [List.takeWhile_cons]
          simp only [List.getD_cons_zero] at hge
          rw [if_neg (by simpa using not_lt.mpr hge)]
          rfl
      | succ j =>
          rw [List.takeWhile_cons]
          have hx : x < t := by simpa using hlt 0 (Nat.succ_pos j)
          rw [if_pos (by simpa using hx)]
          have hj' : j < xs.length := by simpa using hj
          have hlt' : ∀ k, k < j → xs.getD k 0 < t := by
            intro k hk
            simpa using hlt (k + 1) (Nat.succ_lt_succ hk)
          have hge' : t ≤ xs.getD j 0 := by simpa using hge
          simp [ih j hj' hlt' hge']

/-- C4 (amended): near-zero `t` maps to `(0, 0)`; near-duration `t` maps to
the last ramp with its full duration as the remainder; every other `t` maps
through the linear scan to the position `j` of the first switch point
GREATER THAN OR EQUAL to `t` (so a `t` exactly at an interior switch point
belongs to the EARLIER ramp, with remainder that ramp's whole duration),
yielding index `j - 1` and remainder `t` minus switch point `j - 1`.  The
`[1, 2]`-ramp example behaves as the spec states. -/
theorem findRampIndex_branches (c : ParabolicCurve) (eps t : ℚ)
    (hlo : -eps ≤ t) (hhi : t ≤ c.duration + eps) (hne : c.ramps ≠ []) :
    (t < eps → c.FindRampIndex eps t = .ok (0, 0)) ∧
    (¬ t < eps → c.duration - eps < t →
      c.FindRampIndex eps t
        = .ok ((c.ramps.length : ℤ) - 1, (c.ramps.getLast?.getD default).duration)) ∧
    (¬ t < eps → ¬ c.duration - eps < t →
      ∀ j, j < c.switchpointsList.length →
        (∀ k, k < j → c.switchpointsList.getD k 0 < t) →
        t ≤ c.switchpointsList.getD j 0 →
        1 ≤ j →
        c.FindRampIndex eps t
          = .ok ((j : ℤ) - 1, t - c.switchpointsList.getD (j - 1) 0)) ∧
    exCurve12.duration = 3 ∧
    exCurve12.EvalPos (1/100) 3 = .ok exCurve12.x1 ∧
    exCurve12.FindRampIndex (1/100) (3/2) = .ok (1, 1/2) := by
  refine ⟨?_, ?_, ?_, ?_, ?_, ?_⟩
  · intro h1
    rw [ParabolicCurve.FindRampIndex, if_pos ⟨hlo, hhi⟩, if_pos h1]
  · intro h1 h2
    rw [ParabolicCurve.FindRampIndex, if_pos ⟨hlo, hhi⟩, if_neg h1, if_pos h2]
    obtain ⟨r, hr⟩ := Option.isSome_iff_exists.mp (List.getLast?_isSome.mpr hne)
    rw [hr]
    simp
  · intro h1 h2 j hj hlt hge hj1
    rw [ParabolicCurve.FindRampIndex, if_pos ⟨hlo, hhi⟩, if_neg h1, if_neg h2]
    rw [takeWhile_lt_length c.switchpointsList t j hj hlt hge]
    rw [if_pos hj, if_neg (by omega)]
  · norm_num [exCurve12, ParabolicCurve.fromRamps, buildCurveLoop,
      ParabolicCurve.SetInitialValue, setRampListX0, Ramp.make]
  · norm_num [exCurve12, ParabolicCurve.fromRamps, buildCurveLoop,
      ParabolicCurve.SetInitialValue, setRampListX0, Ramp.make,
      ParabolicCurve.EvalPos]
  · norm_num [exCurve12, ParabolicCurve.fromRamps, buildCurveLoop,
      ParabolicCurve.SetInitialValue, setRampListX0, Ramp.make,
      ParabolicCurve.FindRampIndex, List.takeWhile]

/-- Witness for the amended C4 on the `[1, 2]` example curve at `t = 3/2`,
`ε = 1/100`, scan position `j = 2`. -/
theorem findRampIndex_branches_witness :
    (-(1/100 : ℚ) ≤ 3/2 ∧ (3/2 : ℚ) ≤ exCurve12.duration + 1/100 ∧
     exCurve12.ramps ≠ []) ∧
    ((3/2 : ℚ) < 1/100 → exCurve12.FindRampIndex (1/100) (3/2) = .ok (0, 0)) ∧
    (¬ (3/2 : ℚ) < 1/100 → exCurve12.duration - 1/100 < 3/2 →
      exCurve12.FindRampIndex (1/100) (3/2)
        = .ok ((exCurve12.ramps.length : ℤ) - 1,
            (exCurve12.ramps.getLast?.getD default).duration)) ∧
    (¬ (3/2 : ℚ) < 1/100 → ¬ exCurve12.duration - 1/100 < 3/2 →
      ∀ j, j < exCurve12.switchpointsList.length →
        (∀ k, k < j → exCurve12.switchpointsList.getD k 0 < 3/2) →
        (3/2 : ℚ) ≤ exCurve12.switchpointsList.getD j 0 →
        1 ≤ j →
        exCurve12.FindRampIndex (1/100) (3/2)
          = .ok ((j : ℤ) - 1, 3/2 - exCurve12.switchpointsList.getD (j - 1) 0)) ∧
    exCurve12.duration = 3 ∧
    exCurve12.EvalPos (1/100) 3 = .ok exCurve12.x1 ∧
    exCurve12.FindRampIndex (1/100) (3/2) = .ok (1, 1/2) :=
  ⟨⟨by norm_num, by
      norm_num [exCurve12, ParabolicCurve.fromRamps, buildCurveLoop,
        ParabolicCurve.SetInitialValue, setRampListX0, Ramp.make], by
      simp [exCurve12, ParabolicCurve.fromRamps, buildCurveLoop,
        ParabolicCurve.SetInitialValue, setRampListX0, Ramp.make]⟩,
   findRampIndex_branches exCurve12 (1/100) (3/2) (by norm_num)
     (by norm_num [exCurve12, ParabolicCurve.fromRamps, buildCurveLoop,
       ParabolicCurve.SetInitialValue, setRampListX0, Ramp.make])
     (by simp [exCurve12, ParabolicCurve.fromRamps, buildCurveLoop,
       ParabolicCurve.SetInitialValue, setRampListX0, Ramp.make])⟩

/-- Counterexample to C4 as stated: at `t = 1` — exactly the interior switch
point of the `[1, 2]` example curve, with `ε = 1/100` — the code returns
`(0, 1)` (the EARLIER ramp, full-duration remainder), while the "first
switch point strictly exceeding `t`" rule of the claim yields `(1, 0)`. -/
theorem findRampIndex_at_exact_switchpoint :
    exCurve12.FindRampIndex (1/100) 1 = .ok (0, 1) ∧
    specFindRampIndexMiddle exCurve12 1 = (1, 0) ∧
    ((0 : ℤ), (1 : ℚ)) ≠ ((1 : ℤ), (0 : ℚ)) := by
  refine ⟨?_, ?_, by decide⟩
  · norm_num [exCurve12, ParabolicCurve.fromRamps, buildCurveLoop,
      ParabolicCurve.SetInitialValue, setRampListX0, Ramp.make,
      ParabolicCurve.FindRampIndex, List.takeWhile]
  · norm_num [exCurve12, ParabolicCurve.fromRamps, buildCurveLoop,
      ParabolicCurve.SetInitialValue, setRampListX0, Ramp.make,
      specFindRampIndexMiddle, List.takeWhile]

theorem exceptBind_ok {α β : Type} (a : α) (f : α → Except Err β) :
    Except.ok a >>= f = f a := rfl

theorem exceptPure {α : Type} (a : α) : (pure a : Except Err α) = Except.ok a := rfl

theorem exceptBind_error {α β : Type} (e : Err) (f : α → Except Err β) :
    (Except.error e : Except Err α) >>= f = Except.error e := rfl

/-- The one-ramp test curve has the requested duration. -/
theorem unitCurve_duration (dur : ℚ) : (unitCurve dur).duration = dur := by
  rw [unitCurve, (fromRamps_spec [Ramp.make 0 0 dur 0]).2.2.2.2.2.2.2]
  simp [Ramp.make]

/-- The one-ramp test curve's switch-point table is `[0, dur]`. -/
theorem unitCurve_switchpoints (dur : ℚ) :
    (unitCurve dur).switchpointsList = [0, dur] := by
  rw [unitCurve, (fromRamps_spec [Ramp.make 0 0 dur 0]).2.1]
  simp [cumList, Ramp.make]

/-- The duration-checking loop succeeds exactly when every curve's duration
is fuzzily equal to the running minimum of the durations before it. -/
theorem durCheckLoop_ok_iff (eps m : ℚ) (rest : List ParabolicCurve) :
    (∃ r, durCheckLoop eps rest m = .ok r) ↔
      (∀ i, i < rest.length →
        |(rest.getD i default).duration - minOfDurations (rest.take i) m| ≤ eps) := by
  induction rest generalizing m with
  | nil => simp [durCheckLoop]
  | cons c cs ih =>
      rw [durCheckLoop]
      by_cases hf : FuzzyEquals c.duration m eps
      · rw [if_pos hf]
        rw [ih (min m c.duration)]
        constructor
        · intro h i hi
          cases i with
          | zero =>
              simpa [minOfDurations, FuzzyEquals] using hf
          | succ i =>
              have := h i (by simpa using hi)
              simpa [minOfDurations] using this
        · intro h i hi
          have := h (i + 1) (by simpa using hi)
          simpa [minOfDurations] using this
      · rw [if_neg hf]
        constructor
        · rintro ⟨r, hr⟩
          exact absurd hr (by simp)
        · intro h
          have h0 := h 0 (Nat.succ_pos cs.length)
          simp only [List.getD_cons_zero, List.take_zero] at h0
          have hP : FuzzyEquals c.duration m eps = true := by
            simp only [FuzzyEquals, decide_eq_true_eq]
            simpa [minOfDurations] using h0
          exact absurd hP hf

/-- On success the duration-checking loop returns the minimum duration. -/
theorem durCheckLoop_ok_val (eps : ℚ) (rest : List ParabolicCurve) (m r : ℚ)
    (h : durCheckLoop eps rest m = .ok r) : r = minOfDurations rest m := by
  induction rest generalizing m with
  | nil =>
      simp only [durCheckLoop, Except.ok.injEq] at h
      simpa [minOfDurations] using h.symm
  | cons c cs ih =>
      rw [durCheckLoop] at h
      by_cases hf : FuzzyEquals c.duration m eps
      · rw [if_pos hf] at h
        simpa [minOfDurations] using ih (min m c.duration) h
      · rw [if_neg hf] at h
        exact absurd h (by simp)

/-- The loop is total: it either returns the minimum or fails the
assertion. -/
theorem durCheckLoop_total (eps : ℚ) (rest : List ParabolicCurve) (m : ℚ) :
    (∃ r, durCheckLoop eps rest m = .ok r) ∨
      durCheckLoop eps rest m = .error .assertionFailure := by
  induction rest generalizing m with
  | nil => exact Or.inl ⟨m, rfl⟩
  | cons c cs ih =>
      rw [durCheckLoop]
      by_cases hf : FuzzyEquals c.duration m eps
      · rw [if_pos hf]; exact ih (min m c.duration)
      · rw [if_neg hf]; exact Or.inr rfl

/-- C5 (amended): the ND constructor's duration assertion compares each
curve against the RUNNING MINIMUM of the durations seen so far (not against
the first curve's duration): on success every curve's duration is within `ε`
of that running minimum and the object's duration is the minimum of all
durations; a violation w.r.t. the running minimum fails the assertion; input
durations `(1, 1 + 10ε)` fail while `(1, 1 + 0.1ε)` succeed. -/
theorem ndConstructor_duration_check (eps : ℚ) (c0 : ParabolicCurve)
    (rest : List ParabolicCurve) (heps : 0 < eps) :
    (∀ nd, ParabolicCurvesND.mk? eps (c0 :: rest) = .ok nd →
      nd.duration = minOfDurations rest c0.duration ∧
      ∀ i, i < rest.length →
        |(rest.getD i default).duration
          - minOfDurations (rest.take i) c0.duration| ≤ eps) ∧
    ((∃ i, i < rest.length ∧
        eps < |(rest.getD i default).duration
          - minOfDurations (rest.take i) c0.duration|) →
      ParabolicCurvesND.mk? eps (c0 :: rest) = .error .assertionFailure) ∧
    ParabolicCurvesND.mk? eps [unitCurve 1, unitCurve (1 + 10 * eps)]
      = .error .assertionFailure ∧
    (∃ nd, ParabolicCurvesND.mk? eps [unitCurve 1, unitCurve (1 + eps / 10)]
        = .ok nd ∧ nd.duration = 1) := by
  refine ⟨?_, ?_, ?_, ?_⟩
  · intro nd hnd
    rw [ParabolicCurvesND.mk?] at hnd
    rcases durCheckLoop_total eps rest c0.duration with ⟨r, hr⟩ | hr
    · have hchecks := (durCheckLoop_ok_iff eps c0.duration rest).mp ⟨r, hr⟩
      refine ⟨?_, hchecks⟩
      rw [hr, exceptBind_ok] at hnd
      rcases hsw : mergeSwitchPoints eps (c0 :: rest) c0.switchpointsList with e | sw
      · rw [hsw, exceptBind_error] at hnd
        exact absurd hnd (by simp)
      · rw [hsw, exceptBind_ok] at hnd
        simp only [Except.ok.injEq] at hnd
        subst hnd
        exact durCheckLoop_ok_val eps rest c0.duration r hr
    · rw [hr, exceptBind_error] at hnd
      exact absurd hnd (by simp)
  · rintro ⟨i, hi, hviol⟩
    rw [ParabolicCurvesND.mk?]
    rcases durCheckLoop_total eps rest c0.duration with ⟨r, hr⟩ | hr
    · have hchecks := (durCheckLoop_ok_iff eps c0.duration rest).mp ⟨r, hr⟩
      exact absurd (hchecks i hi) (not_le.mpr hviol)
    · rw [hr, exceptBind_error]
  · rw [ParabolicCurvesND.mk?]
    have hfz : FuzzyEquals (unitCurve (1 + 10 * eps)).duration
        (unitCurve 1).duration eps = false := by
      simp only [unitCurve_duration, FuzzyEquals]
      rw [decide_eq_false_iff_not]
      intro habs
      rw [abs_le] at habs
      linarith [habs.2]
    simp only [durCheckLoop]
    rw [if_neg (by rw [hfz]; simp), exceptBind_error]
  · rw [ParabolicCurvesND.mk?]
    have hfz : FuzzyEquals (unitCurve (1 + eps / 10)).duration
        (unitCurve 1).duration eps = true := by
      simp only [unitCurve_duration, FuzzyEquals]
      rw [decide_eq_true_eq, abs_le]
      constructor <;> linarith
    simp only [durCheckLoop]
    rw [if_pos hfz, exceptBind_ok]
    simp only [mergeSwitchPoints, unitCurve_switchpoints,
      List.drop_succ_cons, List.drop_zero, List.dropLast_single,
      List.foldlM_nil, exceptPure, exceptBind_ok]
    refine ⟨_, rfl, ?_⟩
    simp only [unitCurve_duration]
    rw [min_eq_left (by linarith)]

/-- Witness for the amended C5 at `ε = 1`, a singleton curve list. -/
theorem ndConstructor_duration_check_witness :
    (0 : ℚ) < 1 ∧
    ((∀ nd, ParabolicCurvesND.mk? 1 [unitCurve 2] = .ok nd →
      nd.duration = minOfDurations [] (unitCurve 2).duration ∧
      ∀ i, i < ([] : List ParabolicCurve).length →
        |(([] : List ParabolicCurve).getD i default).duration
          - minOfDurations (([] : List ParabolicCurve).take i) (unitCurve 2).duration| ≤ 1) ∧
    ((∃ i, i < ([] : List ParabolicCurve).length ∧
        (1:ℚ) < |(([] : List ParabolicCurve).getD i default).duration
          - minOfDurations (([] : List ParabolicCurve).take i) (unitCurve 2).duration|) →
      ParabolicCurvesND.mk? 1 [unitCurve 2] = .error .assertionFailure) ∧
    ParabolicCurvesND.mk? 1 [unitCurve 1, unitCurve (1 + 10 * 1)]
      = .error .assertionFailure ∧
    (∃ nd, ParabolicCurvesND.mk? 1 [unitCurve 1, unitCurve (1 + 1 / 10)]
        = .ok nd ∧ nd.duration = 1)) :=
  ⟨by decide, ndConstructor_duration_check 1 (unitCurve 2) [] (by decide)⟩

/-- Counterexample to C5 as stated: with `ε = 1/1000` and durations
`[1, 1 - 0.9ε, 1 + 0.5ε]`, every duration is within `ε` of the FIRST
duration, yet construction fails — the third curve is compared against the
running minimum `1 - 0.9ε`, from which it differs by `1.4ε > ε`. -/
theorem ndConstructor_fails_within_eps_of_first :
    ParabolicCurvesND.mk? (1/1000)
        [unitCurve 1, unitCurve (1 - 9/10000), unitCurve (1 + 1/2000)]
      = .error .assertionFailure ∧
    |(1 - 9/10000 : ℚ) - 1| ≤ 1/1000 ∧
    |(1 + 1/2000 : ℚ) - 1| ≤ 1/1000 := by
  refine ⟨?_, by rw [abs_le]; constructor <;> norm_num,
    by rw [abs_le]; constructor <;> norm_num⟩
  rw [ParabolicCurvesND.mk?]
  have h1 : FuzzyEquals (unitCurve (1 - 9/10000)).duration
      (unitCurve 1).duration (1/1000) = true := by
    simp only [unitCurve_duration, FuzzyEquals]
    rw [decide_eq_true_eq, abs_le]
    constructor <;> norm_num
  have h2 : FuzzyEquals (unitCurve (1 + 1/2000)).duration
      (min (unitCurve 1).duration (unitCurve (1 - 9/10000)).duration) (1/1000)
      = false := by
    simp only [unitCurve_duration, FuzzyEquals]
    rw [min_eq_right (by norm_num), decide_eq_false_iff_not, abs_le]
    intro h
    have := h.2
    norm_num at this
  simp only [durCheckLoop]
  rw [if_pos h1, if_neg (by rw [h2]; simp), exceptBind_error]

/-- C1: for every Ramp constructed from `(v0, a, T, x0)` with `T ≥ 0` (and
any tolerance `ε ≥ 0`), `EvalPos(0) = x0`, `EvalPos(T) = x1`,
`EvalVel(0) = v0`, `EvalVel(T) = v1`, and every interior time `0 < t < T`
evaluates to the exact closed forms `x0 + t*(v0 + 0.5*a*t)` and
`v0 + a*t`. -/
theorem ramp_eval_closed_form (v0 a T x0 eps : ℚ) (heps : 0 ≤ eps)
    (hT : 0 ≤ T) :
    (Ramp.make v0 a T x0).EvalPos eps 0 = .ok x0 ∧
    (Ramp.make v0 a T x0).EvalPos eps T = .ok (Ramp.make v0 a T x0).x1 ∧
    (Ramp.make v0 a T x0).EvalVel eps 0 = .ok v0 ∧
    (Ramp.make v0 a T x0).EvalVel eps T = .ok (Ramp.make v0 a T x0).v1 ∧
    ∀ t, 0 < t → t < T →
      (Ramp.make v0 a T x0).EvalPos eps t = .ok (x0 + t * (v0 + (1/2) * a * t)) ∧
      (Ramp.make v0 a T x0).EvalVel eps t = .ok (v0 + a * t) := by
  refine ⟨?_, ?_, ?_, ?_, ?_⟩
  · rw [evalPos_make v0 a T x0 eps 0 heps le_rfl hT]
    norm_num
  · rw [evalPos_make v0 a T x0 eps T heps hT le_rfl]
    simp only [Ramp.make, Except.ok.injEq]
    ring
  · rw [evalVel_make v0 a T x0 eps 0 heps le_rfl hT]
    norm_num
  · rw [evalVel_make v0 a T x0 eps T heps hT le_rfl]
    simp [Ramp.make]
  · intro t ht0 htT
    constructor
    · rw [evalPos_make v0 a T x0 eps t heps ht0.le htT.le]
      simp only [Except.ok.injEq]
      ring
    · exact evalVel_make v0 a T x0 eps t heps ht0.le htT.le

/-- Witness for C1 at `v0 = 2, a = 3, T = 1, x0 = 5, ε = 1`. -/
theorem ramp_eval_closed_form_witness :
    ((0:ℚ) ≤ 1 ∧ (0:ℚ) ≤ 1) ∧
    ((Ramp.make 2 3 1 5).EvalPos 1 0 = .ok 5 ∧
     (Ramp.make 2 3 1 5).EvalPos 1 1 = .ok (Ramp.make 2 3 1 5).x1 ∧
     (Ramp.make 2 3 1 5).EvalVel 1 0 = .ok 2 ∧
     (Ramp.make 2 3 1 5).EvalVel 1 1 = .ok (Ramp.make 2 3 1 5).v1 ∧
     ∀ t, 0 < t → t < 1 →
       (Ramp.make 2 3 1 5).EvalPos 1 t = .ok (5 + t * (2 + (1/2) * 3 * t)) ∧
       (Ramp.make 2 3 1 5).EvalVel 1 t = .ok (2 + 3 * t)) :=
  ⟨⟨by decide, by decide⟩,
   ramp_eval_closed_form 2 3 1 5 1 (by decide) (by decide)⟩

theorem quad_lower_start (v0 a x0 t : ℚ) (hv : 0 ≤ v0) (ha : 0 ≤ a) (ht : 0 ≤ t) :
    x0 ≤ t * (v0 + (1/2) * a * t) + x0 := by
  nlinarith [mul_nonneg ht hv, mul_nonneg (mul_nonneg ha ht) ht]

theorem quad_mono_up (v0 a x0 t T : ℚ) (hv : 0 ≤ v0) (ha : 0 ≤ a) (ht : 0 ≤ t)
    (htT : t ≤ T) :
    t * (v0 + (1/2) * a * t) + x0 ≤ T * (v0 + (1/2) * a * T) + x0 := by
  nlinarith [mul_nonneg (sub_nonneg.mpr htT) hv,
    mul_nonneg (mul_nonneg ha (sub_nonneg.mpr htT)) (by linarith : (0:ℚ) ≤ T + t)]

theorem quad_upper_start (v0 a x0 t : ℚ) (hv : v0 ≤ 0) (ha : a ≤ 0) (ht : 0 ≤ t) :
    t * (v0 + (1/2) * a * t) + x0 ≤ x0 := by
  nlinarith [mul_nonneg ht (neg_nonneg.mpr hv), mul_nonneg (mul_nonneg (neg_nonneg.mpr ha) ht) ht]

theorem quad_mono_down (v0 a x0 t T : ℚ) (hv : v0 ≤ 0) (ha : a ≤ 0) (ht : 0 ≤ t)
    (htT : t ≤ T) :
    T * (v0 + (1/2) * a * T) + x0 ≤ t * (v0 + (1/2) * a * t) + x0 := by
  nlinarith [mul_nonneg (sub_nonneg.mpr htT) (neg_nonneg.mpr hv),
    mul_nonneg (mul_nonneg (neg_nonneg.mpr ha) (sub_nonneg.mpr htT)) (by linarith : (0:ℚ) ≤ T + t)]

theorem quad_vertex_min (v0 a x0 s t : ℚ) (ha : 0 < a) (hs : a * s = -v0) :
    s * (v0 + (1/2) * a * s) + x0 ≤ t * (v0 + (1/2) * a * t) + x0 := by
  have hv : v0 = -(a * s) := by linarith
  subst hv
  nlinarith [mul_nonneg ha.le (sq_nonneg (t - s))]

theorem quad_vertex_max (v0 a x0 s t : ℚ) (ha : a < 0) (hs : a * s = -v0) :
    t * (v0 + (1/2) * a * t) + x0 ≤ s * (v0 + (1/2) * a * s) + x0 := by
  have hv : v0 = -(a * s) := by linarith
  subst hv
  nlinarith [mul_nonneg (neg_nonneg.mpr ha.le) (sq_nonneg (t - s))]

theorem quad_upper_convex (v0 a x0 t T : ℚ) (ha : 0 < a) (hT : 0 < T)
    (hd : 0 ≤ T * (v0 + (1/2) * a * T)) (ht : 0 ≤ t) (htT : t ≤ T) :
    t * (v0 + (1/2) * a * t) + x0 ≤ T * (v0 + (1/2) * a * T) + x0 := by
  have hvT : 0 ≤ v0 + (1/2) * a * T := nonneg_of_mul_nonneg_right (by linarith) hT
  nlinarith [mul_nonneg (sub_nonneg.mpr htT) hvT,
    mul_nonneg (mul_nonneg ha.le (sub_nonneg.mpr htT)) ht]

theorem quad_lower_concave (v0 a x0 t T : ℚ) (ha : a < 0) (hT : 0 < T)
    (hd : T * (v0 + (1/2) * a * T) ≤ 0) (ht : 0 ≤ t) (htT : t ≤ T) :
    T * (v0 + (1/2) * a * T) + x0 ≤ t * (v0 + (1/2) * a * t) + x0 := by
  have hvT : v0 + (1/2) * a * T ≤ 0 := nonpos_of_mul_nonpos_right (by linarith) hT
  nlinarith [mul_nonneg (sub_nonneg.mpr htT) (neg_nonneg.mpr hvT),
    mul_nonneg (mul_nonneg (neg_nonneg.mpr ha.le) (sub_nonneg.mpr htT)) ht]

/-- Packaging: pure bounds on the closed form become bounds on `EvalPos`. -/
theorem tight_pack (v0 a T x0 eps bmin bmax : ℚ) (heps : 0 ≤ eps)
    (hbounds : ∀ t, 0 ≤ t → t ≤ T →
      bmin ≤ t * (v0 + (1/2) * a * t) + x0 ∧
      t * (v0 + (1/2) * a * t) + x0 ≤ bmax)
    (ht1 : ∃ t1, 0 ≤ t1 ∧ t1 ≤ T ∧ t1 * (v0 + (1/2) * a * t1) + x0 = bmin)
    (ht2 : ∃ t2, 0 ≤ t2 ∧ t2 ≤ T ∧ t2 * (v0 + (1/2) * a * t2) + x0 = bmax) :
    (∀ t, 0 ≤ t → t ≤ T → ∃ y, (Ramp.make v0 a T x0).EvalPos eps t = .ok y ∧
      bmin ≤ y ∧ y ≤ bmax) ∧
    (∃ t1, 0 ≤ t1 ∧ t1 ≤ T ∧ (Ramp.make v0 a T x0).EvalPos eps t1 = .ok bmin) ∧
    (∃ t2, 0 ≤ t2 ∧ t2 ≤ T ∧ (Ramp.make v0 a T x0).EvalPos eps t2 = .ok bmax) := by
  refine ⟨?_, ?_, ?_⟩
  · intro t h0 hT
    exact ⟨_, evalPos_make v0 a T x0 eps t heps h0 hT, hbounds t h0 hT⟩
  · obtain ⟨t1, h0, hT, hv⟩ := ht1
    exact ⟨t1, h0, hT, by rw [evalPos_make v0 a T x0 eps t1 heps h0 hT, hv]⟩
  · obtain ⟨t2, h0, hT, hv⟩ := ht2
    exact ⟨t2, h0, hT, by rw [evalPos_make v0 a T x0 eps t2 heps h0 hT, hv]⟩

/-- C2 amended main statement. -/
theorem getPeaks_tight (v0 a T x0 eps : ℚ) (hT : 0 ≤ T) (heps : 0 < eps)
    (hcond : a = 0 ∨ (eps < |a| ∧ 0 ≤ a * (Ramp.make v0 a T x0).d)) :
    ∃ bmin bmax, (Ramp.make v0 a T x0).GetPeaks eps = .ok (bmin, bmax) ∧
      (∀ t, 0 ≤ t → t ≤ T → ∃ y, (Ramp.make v0 a T x0).EvalPos eps t = .ok y ∧
        bmin ≤ y ∧ y ≤ bmax) ∧
      (∃ t1, 0 ≤ t1 ∧ t1 ≤ T ∧ (Ramp.make v0 a T x0).EvalPos eps t1 = .ok bmin) ∧
      (∃ t2, 0 ≤ t2 ∧ t2 ≤ T ∧ (Ramp.make v0 a T x0).EvalPos eps t2 = .ok bmax) ∧
      (a = 0 → 0 ≤ v0 → bmin = x0) := by
  rcases hcond with ha0 | ⟨haeps, had⟩
  · -- fuzzily-zero branch with a exactly zero
    subst ha0
    have hfz : FuzzyZero (Ramp.make v0 0 T x0).a eps = true := by
      simp [FuzzyZero, Ramp.make, heps.le]
    by_cases hv : v0 > 0
    · obtain ⟨hb1, hb2, hb3⟩ := tight_pack v0 0 T x0 eps x0
        (x0 + T * (v0 + (1/2) * 0 * T)) heps.le
        (fun t h0 htT => ⟨quad_lower_start v0 0 x0 t hv.le le_rfl h0,
          by have := quad_mono_up v0 0 x0 t T hv.le le_rfl h0 htT; linarith⟩)
        ⟨0, le_rfl, hT, by ring⟩ ⟨T, hT, le_rfl, by ring⟩
      refine ⟨x0, x0 + T * (v0 + (1/2) * 0 * T), ?_, hb1, hb2, hb3, fun _ _ => rfl⟩
      rw [Ramp.GetPeaks, if_pos hfz]
      simp only [Ramp.make]
      rw [if_pos hv]
    · have hv' : v0 ≤ 0 := not_lt.mp hv
      obtain ⟨hb1, hb2, hb3⟩ := tight_pack v0 0 T x0 eps
        (x0 + T * (v0 + (1/2) * 0 * T)) x0 heps.le
        (fun t h0 htT => ⟨by
            have := quad_mono_down v0 0 x0 t T hv' le_rfl h0 htT; linarith,
          quad_upper_start v0 0 x0 t hv' le_rfl h0⟩)
        ⟨T, hT, le_rfl, by ring⟩ ⟨0, le_rfl, hT, by ring⟩
      refine ⟨x0 + T * (v0 + (1/2) * 0 * T), x0, ?_, hb1, hb2, hb3, fun _ hv0 => ?_⟩
      · rw [Ramp.GetPeaks, if_pos hfz]
        simp only [Ramp.make]
        rw [if_neg hv]
      · have hv0' : v0 = 0 := le_antisymm hv' hv0
        subst hv0'
        ring
  · -- |a| > eps: endpoint ordering by sign of a, plus the deflection point
    have ha0 : a ≠ 0 := by
      intro h
      rw [h, abs_zero] at haeps
      linarith
    have had' : 0 ≤ a * (T * (v0 + (1/2) * a * T)) := by
      simpa only [Ramp.make] using had
    have hfz : FuzzyZero a eps = false := by
      simp only [FuzzyZero]
      rw [decide_eq_false_iff_not]
      exact not_le.mpr haeps
    simp only [Ramp.GetPeaks, Ramp.make]
    rw [if_neg (by rw [hfz]; simp)]
    by_cases hapos : a > 0
    · have hd : 0 ≤ T * (v0 + (1/2) * a * T) :=
        nonneg_of_mul_nonneg_right (by linarith [had']) hapos
      rw [if_pos hapos]
      by_cases hdef : (-v0 / a ≤ 0 ∨ T ≤ -v0 / a)
      · rw [if_pos hdef]
        rcases hdef with h1 | h2
        · have hv0 : 0 ≤ v0 := by
            by_contra hc
            push_neg at hc
            have : 0 < -v0 / a := div_pos (by linarith) hapos
            linarith
          obtain ⟨hb1, hb2, hb3⟩ := tight_pack v0 a T x0 eps x0
            (x0 + T * (v0 + (1/2) * a * T)) heps.le
            (fun t h0 htT => ⟨quad_lower_start v0 a x0 t hv0 hapos.le h0, by
              have := quad_mono_up v0 a x0 t T hv0 hapos.le h0 htT
              linarith⟩)
            ⟨0, le_rfl, hT, by ring⟩ ⟨T, hT, le_rfl, by ring⟩
          exact ⟨x0, x0 + T * (v0 + (1/2) * a * T), rfl, hb1, hb2, hb3,
            fun h _ => absurd h ha0⟩
        · have hvle : T * a ≤ -v0 := (le_div_iff₀ hapos).mp h2
          have hT0 : T = 0 := by
            by_contra hne
            have hTpos : 0 < T := lt_of_le_of_ne hT (Ne.symm hne)
            have h3 : v0 + (1/2) * a * T < 0 := by nlinarith
            have h4 : T * (v0 + (1/2) * a * T) < 0 :=
              mul_neg_of_pos_of_neg hTpos h3
            linarith
          subst hT0
          obtain ⟨hb1, hb2, hb3⟩ := tight_pack v0 a 0 x0 eps x0
            (x0 + 0 * (v0 + (1/2) * a * 0)) heps.le
            (fun t h0 htT => by
              have ht0 : t = 0 := le_antisymm htT h0
              subst ht0
              constructor <;> simp)
            ⟨0, le_rfl, le_rfl, by ring⟩ ⟨0, le_rfl, le_rfl, by ring⟩
          exact ⟨x0, x0 + 0 * (v0 + (1/2) * a * 0), rfl, hb1, hb2, hb3,
            fun h _ => absurd h ha0⟩
      · rw [if_neg hdef]
        push_neg at hdef
        obtain ⟨hs0, hsT⟩ := hdef
        have hs : a * (-v0 / a) = -v0 := by
          rw [mul_comm]
          exact div_mul_cancel₀ (-v0) ha0
        have hTpos : 0 < T := lt_trans hs0 hsT
        have hvm : ∀ t, (-v0 / a) * (v0 + (1/2) * a * (-v0 / a)) + x0
            ≤ t * (v0 + (1/2) * a * t) + x0 :=
          fun t => quad_vertex_min v0 a x0 (-v0 / a) t hapos hs
        have hEv := evalPos_make v0 a T x0 eps (-v0 / a) heps.le hs0.le hsT.le
        simp only [Ramp.make] at hEv
        rw [hEv, exceptBind_ok]
        have hminD : min x0 ((-v0 / a) * (v0 + (1/2) * a * (-v0 / a)) + x0)
            = (-v0 / a) * (v0 + (1/2) * a * (-v0 / a)) + x0 := by
          refine min_eq_right ?_
          have := hvm 0
          linarith
        have hmaxD : max (x0 + T * (v0 + (1/2) * a * T))
            ((-v0 / a) * (v0 + (1/2) * a * (-v0 / a)) + x0)
            = x0 + T * (v0 + (1/2) * a * T) := by
          refine max_eq_left ?_
          have := hvm T
          linarith
        obtain ⟨hb1, hb2, hb3⟩ := tight_pack v0 a T x0 eps
          (min x0 ((-v0 / a) * (v0 + (1/2) * a * (-v0 / a)) + x0))
          (max (x0 + T * (v0 + (1/2) * a * T))
            ((-v0 / a) * (v0 + (1/2) * a * (-v0 / a)) + x0)) heps.le
          (fun t h0 htT => ⟨by rw [hminD]; exact hvm t, by
            rw [hmaxD]
            have := quad_upper_convex v0 a x0 t T hapos hTpos hd h0 htT
            linarith⟩)
          ⟨-v0 / a, hs0.le, hsT.le, by rw [hminD]⟩
          ⟨T, hT, le_rfl, by rw [hmaxD]; ring⟩
        exact ⟨_, _, rfl, hb1, hb2, hb3, fun h _ => absurd h ha0⟩
    · have haneg : a < 0 := lt_of_le_of_ne (not_lt.mp hapos) ha0
      have hd : T * (v0 + (1/2) * a * T) ≤ 0 := by
        by_contra hc
        push_neg at hc
        have : a * (T * (v0 + (1/2) * a * T)) < 0 :=
          mul_neg_of_neg_of_pos haneg hc
        linarith
      rw [if_neg hapos]
      by_cases hdef : (-v0 / a ≤ 0 ∨ T ≤ -v0 / a)
      · rw [if_pos hdef]
        rcases hdef with h1 | h2
        · have hv0 : v0 ≤ 0 := by
            by_contra hc
            push_neg at hc
            have : 0 < -v0 / a := div_pos_of_neg_of_neg (by linarith) haneg
            linarith
          obtain ⟨hb1, hb2, hb3⟩ := tight_pack v0 a T x0 eps
            (x0 + T * (v0 + (1/2) * a * T)) x0 heps.le
            (fun t h0 htT => ⟨by
              have := quad_mono_down v0 a x0 t T hv0 haneg.le h0 htT
              linarith, quad_upper_start v0 a x0 t hv0 haneg.le h0⟩)
            ⟨T, hT, le_rfl, by ring⟩ ⟨0, le_rfl, hT, by ring⟩
          exact ⟨x0 + T * (v0 + (1/2) * a * T), x0, rfl, hb1, hb2, hb3,
            fun h _ => absurd h ha0⟩
        · have hvge : -v0 ≤ T * a := (le_div_iff_of_neg haneg).mp h2
          have hT0 : T = 0 := by
            by_contra hne
            have hTpos : 0 < T := lt_of_le_of_ne hT (Ne.symm hne)
            have h3 : 0 < v0 + (1/2) * a * T := by nlinarith
            have h4 : 0 < T * (v0 + (1/2) * a * T) := mul_pos hTpos h3
            linarith
          subst hT0
          obtain ⟨hb1, hb2, hb3⟩ := tight_pack v0 a 0 x0 eps
            (x0 + 0 * (v0 + (1/2) * a * 0)) x0 heps.le
            (fun t h0 htT => by
              have ht0 : t = 0 := le_antisymm htT h0
              subst ht0
              constructor <;> simp)
            ⟨0, le_rfl, le_rfl, by ring⟩ ⟨0, le_rfl, le_rfl, by ring⟩
          exact ⟨x0 + 0 * (v0 + (1/2) * a * 0), x0, rfl, hb1, hb2, hb3,
            fun h _ => absurd h ha0⟩
      · rw [if_neg hdef]
        push_neg at hdef
        obtain ⟨hs0, hsT⟩ := hdef
        have hs : a * (-v0 / a) = -v0 := by
          rw [mul_comm]
          exact div_mul_cancel₀ (-v0) ha0
        have hTpos : 0 < T := lt_trans hs0 hsT
        have hvM : ∀ t, t * (v0 + (1/2) * a * t) + x0
            ≤ (-v0 / a) * (v0 + (1/2) * a * (-v0 / a)) + x0 :=
          fun t => quad_vertex_max v0 a x0 (-v0 / a) t haneg hs
        have hEv := evalPos_make v0 a T x0 eps (-v0 / a) heps.le hs0.le hsT.le
        simp only [Ramp.make] at hEv
        rw [hEv, exceptBind_ok]
        have hminD : min (x0 + T * (v0 + (1/2) * a * T))
            ((-v0 / a) * (v0 + (1/2) * a * (-v0 / a)) + x0)
            = x0 + T * (v0 + (1/2) * a * T) := by
          refine min_eq_left ?_
          have := hvM T
          linarith
        have hmaxD : max x0 ((-v0 / a) * (v0 + (1/2) * a * (-v0 / a)) + x0)
            = (-v0 / a) * (v0 + (1/2) * a * (-v0 / a)) + x0 := by
          refine max_eq_right ?_
          have := hvM 0
          linarith
        obtain ⟨hb1, hb2, hb3⟩ := tight_pack v0 a T x0 eps
          (min (x0 + T * (v0 + (1/2) * a * T))
            ((-v0 / a) * (v0 + (1/2) * a * (-v0 / a)) + x0))
          (max x0 ((-v0 / a) * (v0 + (1/2) * a * (-v0 / a)) + x0)) heps.le
          (fun t h0 htT => ⟨by
            rw [hminD]
            have := quad_lower_concave v0 a x0 t T haneg hTpos hd h0 htT
            linarith, by rw [hmaxD]; exact hvM t⟩)
          ⟨T, hT, le_rfl, by rw [hminD]; ring⟩
          ⟨-v0 / a, hs0.le, hsT.le, by rw [hmaxD]⟩
        exact ⟨_, _, rfl, hb1, hb2, hb3, fun h _ => absurd h ha0⟩

/-- With a non-negative tolerance, a ramp's `GetPeaks` never fails (the only
internal evaluation happens strictly inside `(0, duration)`). -/
theorem rampGetPeaks_ok (r : Ramp) (eps : ℚ) (heps : 0 ≤ eps) :
    ∃ p, r.GetPeaks eps = .ok p := by
  simp only [Ramp.GetPeaks]
  by_cases h1 : FuzzyZero r.a eps
  · rw [if_pos h1]
    exact ⟨_, rfl⟩
  · rw [if_neg h1]
    by_cases h2 : (-r.v0 / r.a ≤ 0 ∨ r.duration ≤ -r.v0 / r.a)
    · rw [if_pos h2]
      exact ⟨_, rfl⟩
    · rw [if_neg h2]
      push_neg at h2
      obtain ⟨hs0, hsT⟩ := h2
      rw [Ramp.EvalPos, if_pos ⟨by linarith, by linarith⟩, exceptBind_ok]
      exact ⟨_, rfl⟩

/-- The per-ramp fold keeps succeeding and keeps a `some` accumulator. -/
theorem curveGetPeaksLoop_some (eps : ℚ) (l : List Ramp) (heps : 0 ≤ eps) :
    ∀ q1 q2 : ℚ, ∃ q', curveGetPeaksLoop eps l (some (q1, q2)) = .ok (some q') := by
  induction l with
  | nil => exact fun q1 q2 => ⟨(q1, q2), rfl⟩
  | cons r rs ih =>
      intro q1 q2
      obtain ⟨p, hp⟩ := rampGetPeaks_ok r eps heps
      rw [curveGetPeaksLoop, hp, exceptBind_ok]
      exact ih _ _

/-- With a non-negative tolerance and at least one ramp, a curve's `GetPeaks`
succeeds (the final assertion cannot fire). -/
theorem curveGetPeaks_ok (c : ParabolicCurve) (eps : ℚ) (heps : 0 ≤ eps)
    (hne : c.ramps ≠ []) : ∃ p, c.GetPeaks eps = .ok p := by
  rw [ParabolicCurve.GetPeaks]
  rcases hl : c.ramps with _ | ⟨r, rs⟩
  · exact absurd hl hne
  · obtain ⟨p, hp⟩ := rampGetPeaks_ok r eps heps
    obtain ⟨p1, p2⟩ := p
    rw [curveGetPeaksLoop, hp, exceptBind_ok]
    obtain ⟨q', hq'⟩ := curveGetPeaksLoop_some eps rs heps p1 p2
    rw [hq', exceptBind_ok]
    exact ⟨q', rfl⟩

/-- The per-axis loop succeeds when every visited index is inside both output
vectors and the curve list. -/
theorem ndGetPeaksLoop_ok (eps : ℚ) (curves : List ParabolicCurve)
    (heps : 0 ≤ eps) (hwf : ∀ c ∈ curves, c.ramps ≠ []) :
    ∀ k i (bmin bmax : List ℚ),
      (∀ j, j < k → i + j < bmin.length) →
      (∀ j, j < k → i + j < bmax.length) →
      (∀ j, j < k → i + j < curves.length) →
      ∃ out, ndGetPeaksLoop eps curves k i bmin bmax = .ok out := by
  intro k
  induction k with
  | zero => exact fun i bmin bmax _ _ _ => ⟨(bmin, bmax), rfl⟩
  | succ k ih =>
      intro i bmin bmax h1 h2 h3
      have hi1 : i < bmin.length := by simpa using h1 0 (Nat.succ_pos k)
      have hi2 : i < bmax.length := by simpa using h2 0 (Nat.succ_pos k)
      have hi3 : i < curves.length := by simpa using h3 0 (Nat.succ_pos k)
      rw [ndGetPeaksLoop, if_pos ⟨hi1, hi2⟩]
      have hc : curves.get? i = some (curves.get ⟨i, hi3⟩) :=
        List.get?_eq_get hi3
      rw [hc]
      dsimp only
      obtain ⟨p, hp⟩ := curveGetPeaks_ok (curves.get ⟨i, hi3⟩) eps heps
        (hwf _ (curves.get_mem i hi3))
      rw [hp, exceptBind_ok]
      refine ih (i + 1) _ _ (fun j hj => ?_) (fun j hj => ?_) (fun j hj => ?_)
      · rw [List.length_set]
        have := h1 (j + 1) (Nat.succ_lt_succ hj)
        omega
      · rw [List.length_set]
        have := h2 (j + 1) (Nat.succ_lt_succ hj)
        omega
      · have := h3 (j + 1) (Nat.succ_lt_succ hj)
        omega

/-- The per-axis loop hits the out-of-range reference `bmaxVect[i]` at
`i = bmaxVect.size()` when the remaining iteration count reaches past it. -/
theorem ndGetPeaksLoop_error (eps : ℚ) (curves : List ParabolicCurve)
    (heps : 0 ≤ eps) (hwf : ∀ c ∈ curves, c.ramps ≠ []) :
    ∀ k i (bmin bmax : List ℚ),
      i ≤ bmax.length → bmax.length < i + k →
      (∀ j, j < bmax.length → j < bmin.length) →
      (∀ j, j < bmax.length → j < curves.length) →
      ndGetPeaksLoop eps curves k i bmin bmax = .error .outOfRangeAccess := by
  intro k
  induction k with
  | zero =>
      intro i bmin bmax hle hlt _ _
      omega
  | succ k ih =>
      intro i bmin bmax hle hlt h1 h2
      by_cases hi : i = bmax.length
      · rw [ndGetPeaksLoop, if_neg (by rw [hi]; simp)]
      · have hilt : i < bmax.length := lt_of_le_of_ne hle hi
        rw [ndGetPeaksLoop, if_pos ⟨h1 i hilt, hilt⟩]
        have hi3 : i < curves.length := h2 i hilt
        have hc : curves.get? i = some (curves.get ⟨i, hi3⟩) :=
          List.get?_eq_get hi3
        rw [hc]
        dsimp only
        obtain ⟨p, hp⟩ := curveGetPeaks_ok (curves.get ⟨i, hi3⟩) eps heps
          (hwf _ (curves.get_mem i hi3))
        rw [hp, exceptBind_ok]
        refine ih (i + 1) _ _ ?_ ?_ ?_ ?_
        · rw [List.length_set]
          omega
        · rw [List.length_set]
          omega
        · intro j hj
          rw [List.length_set] at hj ⊢
          exact h1 j hj
        · intro j hj
          rw [List.length_set] at hj
          exact h2 j hj

theorem resizeQ_length (l : List ℚ) (n : Nat) : (resizeQ l n).length = n := by
  simp only [resizeQ, List.length_append, List.length_take, List.length_replicate]
  omega

/-- C10: `ParabolicCurvesND::GetPeaks` resizes only `bminVect` (twice) and
never `bmaxVect`, so with `ndof ≥ 1` an undersized `bmaxVect` makes the write
`bmaxVect[i]` out of range at axis `i = bmaxVect.size()`; the operation
succeeds (the error branch is unreachable) when the caller pre-sizes
`bmaxVect` to at least `ndof`. -/
theorem ndGetPeaks_requires_bmax_sized (nd : ParabolicCurvesND) (eps : ℚ)
    (bminVect bmaxVect : List ℚ) (heps : 0 ≤ eps) (_hndof : 1 ≤ nd.ndof)
    (hlen : nd.curves.length = nd.ndof)
    (hwf : ∀ c ∈ nd.curves, c.ramps ≠ []) :
    (bmaxVect.length < nd.ndof →
      nd.GetPeaksND eps bminVect bmaxVect = .error .outOfRangeAccess) ∧
    (nd.ndof ≤ bmaxVect.length →
      ∃ out, nd.GetPeaksND eps bminVect bmaxVect = .ok out) := by
  constructor
  · intro hsmall
    rw [ParabolicCurvesND.GetPeaksND]
    refine ndGetPeaksLoop_error eps nd.curves heps hwf nd.ndof 0 _ _
      (Nat.zero_le _) (by omega) ?_ ?_
    · intro j hj
      rw [resizeQ_length]
      omega
    · intro j hj
      omega
  · intro hbig
    rw [ParabolicCurvesND.GetPeaksND]
    refine ndGetPeaksLoop_ok eps nd.curves heps hwf nd.ndof 0 _ _
      (fun j hj => ?_) (fun j hj => ?_) (fun j hj => ?_)
    · rw [resizeQ_length]
      omega
    · omega
    · omega

/-- Witness for C10 on the one-axis example, with an empty `bmaxVect`. -/
theorem ndGetPeaks_requires_bmax_sized_witness :
    ((0:ℚ) ≤ 1 ∧ 1 ≤ ndExample.ndof ∧ ndExample.curves.length = ndExample.ndof ∧
      (∀ c ∈ ndExample.curves, c.ramps ≠ [])) ∧
    ((([] : List ℚ).length < ndExample.ndof →
      ndExample.GetPeaksND 1 [] [] = .error .outOfRangeAccess) ∧
     (ndExample.ndof ≤ ([] : List ℚ).length →
      ∃ out, ndExample.GetPeaksND 1 [] [] = .ok out)) :=
  ⟨⟨by decide, by decide, by decide, by
     intro c hc
     simp only [ndExample, List.mem_singleton] at hc
     subst hc
     simp [unitCurve, ParabolicCurve.fromRamps, buildCurveLoop,
       ParabolicCurve.SetInitialValue, setRampListX0, Ramp.make]⟩,
   ndGetPeaks_requires_bmax_sized ndExample 1 [] [] (by decide) (by decide)
     (by decide) (by
     intro c hc
     simp only [ndExample, List.mem_singleton] at hc
     subst hc
     simp [unitCurve, ParabolicCurve.fromRamps, buildCurveLoop,
       ParabolicCurve.SetInitialValue, setRampListX0, Ramp.make])⟩

/-- Witness for the amended C2: `v0 = -2, a = 2, T = 2, x0 = 0, ε = 1` — an
interior-deflection ramp with `a·d = 0 ≥ 0`. -/
theorem getPeaks_tight_witness :
    ((0:ℚ) ≤ 2 ∧ (0:ℚ) < 1 ∧
      ((2:ℚ) = 0 ∨ ((1:ℚ) < |(2:ℚ)| ∧ 0 ≤ 2 * (Ramp.make (-2) 2 2 0).d))) ∧
    (∃ bmin bmax, (Ramp.make (-2) 2 2 0).GetPeaks 1 = .ok (bmin, bmax) ∧
      (∀ t, 0 ≤ t → t ≤ 2 → ∃ y, (Ramp.make (-2) 2 2 0).EvalPos 1 t = .ok y ∧
        bmin ≤ y ∧ y ≤ bmax) ∧
      (∃ t1, 0 ≤ t1 ∧ t1 ≤ 2 ∧ (Ramp.make (-2) 2 2 0).EvalPos 1 t1 = .ok bmin) ∧
      (∃ t2, 0 ≤ t2 ∧ t2 ≤ 2 ∧ (Ramp.make (-2) 2 2 0).EvalPos 1 t2 = .ok bmax) ∧
      ((2:ℚ) = 0 → 0 ≤ (-2:ℚ) → bmin = 0)) :=
  ⟨⟨by norm_num, by norm_num,
    Or.inr ⟨by rw [abs_of_pos] <;> norm_num, by norm_num [Ramp.make]⟩⟩,
   getPeaks_tight (-2) 2 2 0 1 (by norm_num) (by norm_num)
     (Or.inr ⟨by rw [abs_of_pos] <;> norm_num, by norm_num [Ramp.make]⟩)⟩

/-- Counterexample to C2 as stated: for the ramp `(v0, a, T, x0) =
(-2, 1, 1, 0)` with `ε = 1/100`, `GetPeaks` returns `(bmin, bmax) =
(0, -3/2)`, yet `EvalPos(1) = -3/2 < bmin` — the returned pair does not even
bound the swept positions (the endpoints were ordered by the sign of `a`
although the motion is decreasing, and the deflection time `2` lies outside
`(0, 1)`). -/
theorem getPeaks_not_bounding :
    (Ramp.make (-2) 1 1 0).GetPeaks (1/100) = .ok (0, -3/2) ∧
    (Ramp.make (-2) 1 1 0).EvalPos (1/100) 1 = .ok (-3/2) ∧
    ¬ ((0:ℚ) ≤ -3/2) := by
  refine ⟨?_, ?_, by norm_num⟩
  · norm_num [Ramp.make, Ramp.GetPeaks, Ramp.EvalPos, FuzzyZero]
  · norm_num [Ramp.make, Ramp.EvalPos]

end RampOpt
